import Mathlib

/-!
Verification development for the CPPiler front-end: a shallow embedding of
`parser_tables.py` (FIRST/FOLLOW sets, LL(1) parse-table construction) and
`predictive_parser.py` (terminal classification, the predictive parsing
engine, the error handler's line/column mapping, and the parse-tree
declared-type query), together with theorems checking the specification's
claims against this embedding.

Conventions of the embedding:
* Python strings are Lean `String`s; Python sets of strings become
  insertion-ordered duplicate-free `List String`s (only membership and
  sortedness are ever observed downstream).
* Python dicts become association lists; a lookup of a missing key yields
  `none` (where the source would raise `KeyError`, the embedding's theorems
  carry explicit key-membership hypotheses, and on the fixed grammar every
  performed lookup hits a populated key).
* The mutable parse tree becomes an arena (`List PNode`) addressed by index,
  with parent back-references as `Option Nat`.
* `raise` becomes `Except.error`; the fuel-indexed loops return their
  fuel-exhaustion defaults only beyond the depth any input here reaches.
-/

set_option maxRecDepth 100000

/-! ## parser_tables.py: fixed grammar data -/

/-- The terminal set of `ParserTables`: the values of `token_to_terminal`
(in insertion order) together with the end marker. -/
def terminalsList : List String :=
  ["#include", "using", "namespace", "std", "int", "float", "main", "while",
   "cin", "cout", "return", "\x7b", "\x7d", "(", ")", ";", ",", "=", "+",
   "-", "*", ">=", "<=", "==", "!=", ">>", "<<", "identifier", "number",
   "string", "$"]

/-- The non-terminal set of `ParserTables`. -/
def nonTerminalsList : List String :=
  ["Start", "S", "N", "M", "T", "V", "Id", "L", "Z", "Operation", "P", "O",
   "W", "Assign", "Expression", "K", "Loop", "Input", "F", "Output", "H", "C"]

/-- The fixed grammar of `ParserTables.__init__`, in dict insertion order;
each production is the space-separated string used by the source. -/
def grammarList : List (String × List String) :=
  [("Start", ["S N M"]),
   ("S", ["#include S", "ε"]),
   ("N", ["using namespace std ;", "ε"]),
   ("M", ["int main ( ) \x7b T V \x7d"]),
   ("T", ["Id T", "L T", "Loop T", "Input T", "Output T", "ε"]),
   ("V", ["return 0 ;", "ε"]),
   ("Id", ["int L", "float L"]),
   ("L", ["identifier Assign Z"]),
   ("Z", [", identifier Assign Z", ";"]),
   ("Operation", ["number P", "identifier P"]),
   ("P", ["O W P", "ε"]),
   ("O", ["+", "-", "*"]),
   ("W", ["number", "identifier"]),
   ("Assign", ["= Operation", "ε"]),
   ("Expression", ["Operation K Operation"]),
   ("K", ["==", ">=", "<=", "!="]),
   ("Loop", ["while ( Expression ) \x7b T \x7d"]),
   ("Input", ["cin >> identifier F ;"]),
   ("F", [">> identifier F", "ε"]),
   ("Output", ["cout << C H ;"]),
   ("H", ["<< C H", "ε"]),
   ("C", ["number", "string", "identifier"])]

/-- The keys of the grammar dict, used for the parser's
`top not in self.parser_tables.grammar` test. -/
def grammarKeys : List String := grammarList.map Prod.fst

/-! ## Splitting a production string on single spaces (Python `str.split()`;
the grammar's production strings are single-space separated with no leading or
trailing blanks, on which the two splitting functions agree). -/

def splitSymsAux : List Char → List Char → List String
  | [], acc => [String.mk acc.reverse]
  | c :: cs, acc =>
    if c = ' ' then String.mk acc.reverse :: splitSymsAux cs []
    else splitSymsAux cs (c :: acc)

def splitSyms (s : String) : List String := splitSymsAux s.data []

/-- `ParserTables._is_terminal`. -/
def isTerminalSymbol (s : String) : Bool :=
  terminalsList.contains s || s == "ε"

/-! ## Set-valued maps (the `first_sets` / `follow_sets` dicts) -/

/-- A dict mapping a symbol to a set of strings; the set is represented as an
insertion-ordered duplicate-free list. -/
abbrev SMap := List (String × List String)

/-- The dict `{nt: set() for nt in self.non_terminals}`. -/
def emptySMap : SMap := nonTerminalsList.map (fun nt => (nt, []))

def getSet (m : SMap) (k : String) : List String := (m.lookup k).getD []

def setSet (m : SMap) (k : String) (v : List String) : SMap :=
  m.map (fun p => if p.1 = k then (k, v) else p)

/-- `set.add` with the source's `changed` bookkeeping. -/
def addOne (m : SMap) (nt x : String) : SMap × Bool :=
  if x ∈ getSet m nt then (m, false)
  else (setSet m nt (getSet m nt ++ [x]), true)

/-- Adding every element of a (pre-computed) list, accumulating `changed`. -/
def addMany (m : SMap) (nt : String) (xs : List String) : SMap × Bool :=
  xs.foldl (fun acc x =>
    let r := addOne acc.1 nt x
    (r.1, acc.2 || r.2)) (m, false)

/-! ## `ParserTables.compute_first_sets` -/

/-- The inner symbol scan of `compute_first_sets` for one production:
threads the map (the source mutates `self.first_sets` in place) and the
`changed` flag, and reports whether every symbol was nullable. -/
def firstScan (nt : String) : List String → SMap → Bool → SMap × Bool × Bool
  | [], m, ch => (m, ch, true)
  | sym :: rest, m, ch =>
    if isTerminalSymbol sym then
      let r := addOne m nt sym
      (r.1, ch || r.2, false)
    else
      let r := addMany m nt ((getSet m sym).filter (fun s => s ≠ "ε"))
      if (getSet r.1 sym).contains "ε" then
        firstScan nt rest r.1 (ch || r.2)
      else (r.1, ch || r.2, false)

/-- Processing one production inside a `compute_first_sets` pass. -/
def firstProd (nt prod : String) (m : SMap) (ch : Bool) : SMap × Bool :=
  match splitSyms prod with
  | [] =>
    let r := addOne m nt "ε"
    (r.1, ch || r.2)
  | s0 :: rest =>
    if s0 = "ε" then
      let r := addOne m nt "ε"
      (r.1, ch || r.2)
    else
      let r := firstScan nt (s0 :: rest) m ch
      if r.2.2 then
        let r2 := addOne r.1 nt "ε"
        (r2.1, r.2.1 || r2.2)
      else (r.1, r.2.1)

def firstProds (nt : String) : List String → SMap × Bool → SMap × Bool
  | [], acc => acc
  | p :: ps, acc => firstProds nt ps (firstProd nt p acc.1 acc.2)

/-- One full pass of the `while changed` loop of `compute_first_sets`. -/
def firstPass : List (String × List String) → SMap × Bool → SMap × Bool
  | [], acc => acc
  | (nt, prods) :: g, acc => firstPass g (firstProds nt prods acc)

/-- The `while changed` loop, fuel-indexed (the additions are monotone over a
finite universe, so the fuel below is never exhausted on the fixed grammar). -/
def firstIter (g : List (String × List String)) : Nat → SMap → SMap
  | 0, m => m
  | fuel + 1, m =>
    let r := firstPass g (m, false)
    if r.2 then firstIter g fuel r.1 else r.1

/-- `ParserTables.compute_first_sets`. -/
def computeFirstSets (g : List (String × List String)) : SMap :=
  firstIter g 50 emptySMap

/-! ## `ParserTables._compute_first_of_string` -/

def setAdd (l : List String) (x : String) : List String :=
  if x ∈ l then l else l ++ [x]

def setAddMany (l : List String) (xs : List String) : List String :=
  xs.foldl setAdd l

/-- The scan loop of `_compute_first_of_string`: returns the accumulated
result set and the `all_nullable` flag. -/
def firstOfStringGo (m : SMap) : List String → List String → List String × Bool
  | [], acc => (acc, true)
  | sym :: rest, acc =>
    if isTerminalSymbol sym then (setAdd acc sym, false)
    else
      let acc1 := setAddMany acc ((getSet m sym).filter (fun s => s ≠ "ε"))
      if (getSet m sym).contains "ε" then firstOfStringGo m rest acc1
      else (acc1, false)

/-- `ParserTables._compute_first_of_string`. -/
def computeFirstOfString (m : SMap) (syms : List String) : List String :=
  match syms with
  | [] => ["ε"]
  | _ =>
    let r := firstOfStringGo m syms []
    if r.2 then setAdd r.1 "ε" else r.1

/-! ## `ParserTables.compute_follow_sets` -/

/-- The initial follow dict: every non-terminal maps to the empty set except
`Start`, which holds the end marker. -/
def followInit : SMap := setSet emptySMap "Start" ["$"]

/-- The positional scan of one production inside a `compute_follow_sets`
pass; at each non-terminal occurrence the trailer is the remaining suffix. -/
def followScan (firsts : SMap) (nt : String) :
    List String → SMap → Bool → SMap × Bool
  | [], m, ch => (m, ch)
  | sym :: rest, m, ch =>
    if nonTerminalsList.contains sym then
      let fot := computeFirstOfString firsts rest
      let r1 := addMany m sym (fot.filter (fun s => s ≠ "ε"))
      if fot.contains "ε" then
        let r2 := addMany r1.1 sym (getSet r1.1 nt)
        followScan firsts nt rest r2.1 (ch || r1.2 || r2.2)
      else followScan firsts nt rest r1.1 (ch || r1.2)
    else followScan firsts nt rest m ch

def followProds (firsts : SMap) (nt : String) :
    List String → SMap × Bool → SMap × Bool
  | [], acc => acc
  | p :: ps, acc =>
    followProds firsts nt ps (followScan firsts nt (splitSyms p) acc.1 acc.2)

/-- One full pass of the `while changed` loop of `compute_follow_sets`. -/
def followPass (firsts : SMap) :
    List (String × List String) → SMap × Bool → SMap × Bool
  | [], acc => acc
  | (nt, prods) :: g, acc => followPass firsts g (followProds firsts nt prods acc)

def followIter (firsts : SMap) (g : List (String × List String)) :
    Nat → SMap → SMap
  | 0, m => m
  | fuel + 1, m =>
    let r := followPass firsts g (m, false)
    if r.2 then followIter firsts g fuel r.1 else r.1

/-- `ParserTables.compute_follow_sets` (it reads the already computed
`self.first_sets`, passed here as `firsts`). -/
def computeFollowSets (g : List (String × List String)) (firsts : SMap) : SMap :=
  followIter firsts g 50 followInit

/-! ## `ParserTables.build_parse_table` -/

/-- The parse table: a dict of dicts over the fixed key grid; cells hold the
production string, `""` for "no entry" and `"ε"` for the ε-marker. -/
abbrev PTable := List (String × List (String × String))

/-- `{nt: {t: '' for t in self.terminals} for nt in self.non_terminals}`. -/
def initPTable : PTable :=
  nonTerminalsList.map (fun nt => (nt, terminalsList.map (fun t => (t, ""))))

/-- Reading a cell; `none` when either key is absent. -/
def cellGet (tb : PTable) (A t : String) : Option String :=
  (tb.lookup A).bind (fun row => row.lookup t)

/-- Writing a cell (Python `self.parse_table[nt][terminal] = prod`). -/
def setCell (tb : PTable) (A t v : String) : PTable :=
  tb.map (fun row =>
    if row.1 = A then
      (A, row.2.map (fun c => if c.1 = t then (t, v) else c))
    else row)

/-- Performing a sequence of table writes with the source's conflict check:
a write into a cell already holding a non-empty entry raises
`Grammar is not LL(1): Conflict at nt, terminal`, modelled as `.error`
naming the offending (non-terminal, terminal) pair. -/
def applyWrites : PTable → List (String × String × String) →
    Except (String × String) PTable
  | tb, [] => .ok tb
  | tb, (A, t, v) :: ws =>
    if ((cellGet tb A t).getD "") ≠ "" then .error (A, t)
    else applyWrites (setCell tb A t v) ws

/-- The writes `build_parse_table` performs for one production, in order:
first the FIRST-set writes (excluding ε), then, if the production can derive
ε, the ε-marker writes over FOLLOW of the non-terminal. -/
def prodWrites (firsts follows : SMap) (nt prod : String) :
    List (String × String × String) :=
  let fop := computeFirstOfString firsts (splitSyms prod)
  ((fop.filter (fun s => s ≠ "ε")).map (fun t => (nt, t, prod))) ++
    (if fop.contains "ε" then (getSet follows nt).map (fun t => (nt, t, "ε"))
     else [])

def buildProds (firsts follows : SMap) (nt : String) :
    List String → PTable → Except (String × String) PTable
  | [], tb => .ok tb
  | p :: ps, tb =>
    match applyWrites tb (prodWrites firsts follows nt p) with
    | .error e => .error e
    | .ok tb1 => buildProds firsts follows nt ps tb1

def buildGo (firsts follows : SMap) :
    List (String × List String) → PTable → Except (String × String) PTable
  | [], tb => .ok tb
  | (nt, prods) :: g, tb =>
    match buildProds firsts follows nt prods tb with
    | .error e => .error e
    | .ok tb1 => buildGo firsts follows g tb1

/-- `ParserTables.build_parse_table`. -/
def buildParseTable (g : List (String × List String)) :
    Except (String × String) PTable :=
  let firsts := computeFirstSets g
  let follows := computeFollowSets g firsts
  buildGo firsts follows g initPTable

/-- The full ordered write list of `build_parse_table` (the same traversal as
`buildGo`, collecting every attempted cell write). -/
def grammarWrites (firsts follows : SMap) :
    List (String × List String) → List (String × String × String)
  | [] => []
  | (nt, prods) :: g =>
    (prods.map (prodWrites firsts follows nt)).flatten ++
      grammarWrites firsts follows g

/-! ## Concrete snapshots of the computed tables for the fixed grammar
(each is linked to the computing function by a theorem below, so downstream
facts can be evaluated without re-running the fixed-point computation). -/

/-- The FIRST sets `compute_first_sets` produces for the fixed grammar. -/
def firstSets0 : SMap :=
  [("Start", ["#include", "using", "int"]), ("S", ["#include", "ε"]),
   ("N", ["using", "ε"]), ("M", ["int"]),
   ("T", ["ε", "int", "float", "identifier", "while", "cin", "cout"]),
   ("V", ["return", "ε"]), ("Id", ["int", "float"]), ("L", ["identifier"]),
   ("Z", [",", ";"]), ("Operation", ["number", "identifier"]),
   ("P", ["ε", "+", "-", "*"]), ("O", ["+", "-", "*"]),
   ("W", ["number", "identifier"]), ("Assign", ["=", "ε"]),
   ("Expression", ["number", "identifier"]), ("K", ["==", ">=", "<=", "!="]),
   ("Loop", ["while"]), ("Input", ["cin"]), ("F", [">>", "ε"]),
   ("Output", ["cout"]), ("H", ["<<", "ε"]),
   ("C", ["number", "string", "identifier"])]

/-- The FOLLOW sets `compute_follow_sets` produces for the fixed grammar. -/
def followSets0 : SMap :=
  [("Start", ["$"]), ("S", ["using", "int"]), ("N", ["int"]), ("M", ["$"]),
   ("T", ["return", "\x7d"]), ("V", ["\x7d"]),
   ("Id", ["int", "float", "identifier", "while", "cin", "cout", "return", "\x7d"]),
   ("L", ["int", "float", "identifier", "while", "cin", "cout", "return", "\x7d"]),
   ("Z", ["int", "float", "identifier", "while", "cin", "cout", "return", "\x7d"]),
   ("Operation", [",", ";", "==", ">=", "<=", "!=", ")"]),
   ("P", [",", ";", "==", ">=", "<=", "!=", ")"]),
   ("O", ["number", "identifier"]),
   ("W", ["+", "-", "*", ",", ";", "==", ">=", "<=", "!=", ")"]),
   ("Assign", [",", ";"]), ("Expression", [")"]),
   ("K", ["number", "identifier"]),
   ("Loop", ["int", "float", "identifier", "while", "cin", "cout", "return", "\x7d"]),
   ("Input", ["int", "float", "identifier", "while", "cin", "cout", "return", "\x7d"]),
   ("F", [";"]),
   ("Output", ["int", "float", "identifier", "while", "cin", "cout", "return", "\x7d"]),
   ("H", [";"]), ("C", ["<<", ";"])]

/-- The non-empty cells `build_parse_table` produces for the fixed grammar. -/
def table0Entries : List (String × String × String) :=
  [("Start", "#include", "S N M"), ("Start", "using", "S N M"),
   ("Start", "int", "S N M"),
   ("S", "#include", "#include S"), ("S", "using", "ε"), ("S", "int", "ε"),
   ("N", "using", "using namespace std ;"), ("N", "int", "ε"),
   ("M", "int", "int main ( ) \x7b T V \x7d"),
   ("T", "int", "Id T"), ("T", "float", "Id T"), ("T", "identifier", "L T"),
   ("T", "while", "Loop T"), ("T", "cin", "Input T"), ("T", "cout", "Output T"),
   ("T", "return", "ε"), ("T", "\x7d", "ε"),
   ("V", "return", "return 0 ;"), ("V", "\x7d", "ε"),
   ("Id", "int", "int L"), ("Id", "float", "float L"),
   ("L", "identifier", "identifier Assign Z"),
   ("Z", ",", ", identifier Assign Z"), ("Z", ";", ";"),
   ("Operation", "number", "number P"), ("Operation", "identifier", "identifier P"),
   ("P", "+", "O W P"), ("P", "-", "O W P"), ("P", "*", "O W P"),
   ("P", ",", "ε"), ("P", ";", "ε"), ("P", ")", "ε"),
   ("P", ">=", "ε"), ("P", "<=", "ε"), ("P", "==", "ε"), ("P", "!=", "ε"),
   ("O", "+", "+"), ("O", "-", "-"), ("O", "*", "*"),
   ("W", "number", "number"), ("W", "identifier", "identifier"),
   ("Assign", "=", "= Operation"), ("Assign", ",", "ε"), ("Assign", ";", "ε"),
   ("Expression", "number", "Operation K Operation"),
   ("Expression", "identifier", "Operation K Operation"),
   ("K", "==", "=="), ("K", ">=", ">="), ("K", "<=", "<="), ("K", "!=", "!="),
   ("Loop", "while", "while ( Expression ) \x7b T \x7d"),
   ("Input", "cin", "cin >> identifier F ;"),
   ("F", ">>", ">> identifier F"), ("F", ";", "ε"),
   ("Output", "cout", "cout << C H ;"),
   ("H", "<<", "<< C H"), ("H", ";", "ε"),
   ("C", "number", "number"), ("C", "string", "string"),
   ("C", "identifier", "identifier")]

def table0Entry (nt t : String) : String :=
  (table0Entries.filterMap (fun w =>
    if w.1 = nt ∧ w.2.1 = t then some w.2.2 else none)).headD ""

/-- The parse table of the fixed grammar, as concrete data; the theorem for
claim C3 identifies it with the result of `buildParseTable`. -/
def table0 : PTable :=
  nonTerminalsList.map (fun nt =>
    (nt, terminalsList.map (fun t => (t, table0Entry nt t))))

/-! ## predictive_parser.py: terminal classification -/

/-- A token of the stream handed to `PredictiveParser.parse`:
`(name, value, position)` as built by the driver. -/
abbrev Token := String × String × Nat

/-- The final token-kind dispatch of `get_terminal_symbol` (strings, numbers
and identifiers map to their kind, reserved words and everything else to
their literal). -/
def getTerminalSymbolBase (tokType tokVal : String) : Option String :=
  if tokType = "string" ∨ tokType = "number" ∨ tokType = "identifier" then
    some tokType
  else if tokType = "reservedword" then some tokVal
  else some tokVal

/-- The symbol-handling part of `get_terminal_symbol` after the `<LibName>`
look-ahead (compound operators pass through; a bare `<` or `>` followed by an
identical symbol token is skipped); non-returning branches fall through to
`getTerminalSymbolBase`. -/
def getTerminalSymbolTail (stream : List Token) (idx : Nat)
    (tokType tokVal : String) : Option String :=
  if tokType = "symbol" then
    if tokVal = "<<" ∨ tokVal = ">>" then some tokVal
    else if tokVal = "<=" ∨ tokVal = ">=" ∨ tokVal = "==" ∨ tokVal = "!=" then
      some tokVal
    else if tokVal = "<" ∨ tokVal = ">" then
      match stream.get? (idx + 1) with
      | some (nextType, nextValue, _) =>
        if nextType = "symbol" ∧ nextValue = tokVal then none
        else some tokVal
      | none => some tokVal
    else getTerminalSymbolBase tokType tokVal
  else getTerminalSymbolBase tokType tokVal

/-- `PredictiveParser.get_terminal_symbol`.  The source reads and mutates
`self.current_token_idx`; here the index is threaded explicitly: the result
is the classified terminal (`none` is the skip signal) paired with the index
after the classifier's own look-ahead consumption.  The `<LibName>` branch
requires a preceding token (`prev_idx >= 0`), i.e. a cursor of at least 1. -/
def getTerminalSymbol (stream : List Token) (idx : Nat)
    (tokType tokVal : String) : Option String × Nat :=
  if tokType = "symbol" ∧ tokVal = "#" then
    match stream.get? (idx + 1) with
    | some (nextType, nextValue, _) =>
      if nextType = "reservedword" ∧ nextValue = "include" then
        (some "#include", idx + 1)
      else (none, idx)
    | none => (none, idx)
  else if tokType = "symbol" ∧ tokVal = "<" ∧ 1 ≤ idx then
    match stream.get? (idx + 1), stream.get? (idx + 2) with
    | some (libType, libValue, _), some (closeType, closeValue, _) =>
      if (libValue = "iostream" ∨ libType = "identifier") ∧
          closeType = "symbol" ∧ closeValue = ">" then
        (some "<LibName>", idx + 2)
      else (getTerminalSymbolTail stream idx tokType tokVal, idx)
    | _, _ => (getTerminalSymbolTail stream idx tokType tokVal, idx)
  else (getTerminalSymbolTail stream idx tokType tokVal, idx)

/-! ## predictive_parser.py: the parsing engine -/

/-- A `ParseTreeNode`.  The mutable Python tree is modelled as an arena
(`List PNode`) addressed by index; `parent` and `children` hold indices. -/
structure PNode where
  value : String
  children : List Nat
  parent : Option Nat
  tokenType : Option String
  tokenValue : Option String
deriving Repr, DecidableEq

def defaultPNode : PNode := ⟨"", [], none, none, none⟩

/-- The errors `parse` can raise: the two `handle_syntax_error` shapes
(single expected symbol, and expected-set from `_get_parsing_context`), the
two `ValueError`s of `get_parse_table_entry`, and the `IndexError` a pop of
an empty deque would raise (never reachable on the inputs considered). -/
inductive ParseErr where
  | errSingle (found expected : String) (pos : Nat)
  | errList (found : String) (expected : List String) (pos : Nat)
  | errUnknownNonTerminal (nt : String)
  | errUnknownTerminal (t : String)
  | errIndex
deriving Repr, DecidableEq

/-- `ParserTables.get_parse_table_entry`, with its two key checks. -/
def getParseTableEntry (tb : PTable) (nt t : String) : Except ParseErr String :=
  match tb.lookup nt with
  | none => .error (.errUnknownNonTerminal nt)
  | some row =>
    match row.lookup t with
    | none => .error (.errUnknownTerminal t)
    | some p => .ok p

/-- Lexicographic-by-code-point comparison of strings (Python `<=` on str). -/
def charListLe : List Char → List Char → Bool
  | [], _ => true
  | _ :: _, [] => false
  | a :: as, b :: bs =>
    if a.val < b.val then true
    else if b.val < a.val then false
    else charListLe as bs

def strLe (a b : String) : Bool := charListLe a.data b.data

def insertStr (x : String) : List String → List String
  | [] => [x]
  | y :: ys => if strLe x y then x :: y :: ys else y :: insertStr x ys

/-- Python `sorted` on a list of strings (insertion sort; the inputs sorted
here are duplicate-free). -/
def sortStrings (l : List String) : List String := l.foldr insertStr []

/-- `PredictiveParser._get_parsing_context`: the sorted list of terminals for
which the non-terminal has a non-empty table entry. -/
def parsingContext (tb : PTable) (nt : String) : List String :=
  sortStrings (terminalsList.filter (fun t => ((cellGet tb nt t).getD "") ≠ ""))

/-- The parser's working state: the arena of tree nodes (index 0 is the
root), the symbol stack and node stack (head = top of the deque), the token
cursor and the production trace. -/
structure PState where
  nodes : List PNode
  stack : List String
  nodeStack : List Nat
  idx : Nat
  prodSeq : List String
deriving Repr, DecidableEq

/-- Appending a fresh child node (value `v`, parent `p`) to the arena and to
`p`'s children list — the `ParseTreeNode(...)` + `children.append` pair the
source performs for the ε-node and for each production symbol. -/
def addChildNode (ns : List PNode) (p : Nat) (v : String) : List PNode :=
  let newIdx := ns.length
  let old := ns.getD p defaultPNode
  ns.set p { old with children := old.children ++ [newIdx] } ++
    [⟨v, [], some p, none, none⟩]

/-- The expansion loop `for symbol in reversed(symbols)` of `parse`: called
with the reversed symbol list, it creates a child node per symbol and pushes
the symbol / node pair onto the two stacks. -/
def pushSyms (p : Nat) :
    List String → List PNode × List String × List Nat →
    List PNode × List String × List Nat
  | [], st => st
  | sym :: rest, (ns, stk, nstk) =>
    let newIdx := ns.length
    pushSyms p rest (addChildNode ns p sym, sym :: stk, newIdx :: nstk)

/-- Outcome of one iteration of the `while` loop of `parse`: loop exit
(`done`, covering both the accept `break` and stream/stack exhaustion),
another iteration (`cont`), or a raised error. -/
inductive StepOut where
  | done (s : PState)
  | cont (s : PState)
  | err (e : ParseErr)
deriving Repr, DecidableEq

/-- One iteration of the `while` loop of `PredictiveParser.parse`. -/
def step (tb : PTable) (stream : List Token) (s : PState) : StepOut :=
  match s.stack with
  | [] => .done s
  | top :: restStack =>
    match stream.get? s.idx with
    | none => .done s
    | some (tokType, tokVal, pos) =>
      let c := getTerminalSymbol stream s.idx tokType tokVal
      match c.1 with
      | none => .cont { s with idx := c.2 + 1 }
      | some terminal =>
        let s1 := { s with idx := c.2 }
        if top = "$" ∧ terminal = "$" then .done s1
        else if top = terminal then
          match s1.nodeStack with
          | [] => .err .errIndex
          | n :: restN =>
            let old := s1.nodes.getD n defaultPNode
            .cont { s1 with
              nodes := s1.nodes.set n
                { old with tokenType := some tokType, tokenValue := some tokVal },
              stack := restStack,
              nodeStack := restN,
              idx := s1.idx + 1 }
        else if grammarKeys.contains top = false then
          .err (.errSingle tokVal top pos)
        else
          match getParseTableEntry tb top terminal with
          | .error e => .err e
          | .ok production =>
            if production = "" then
              .err (.errList tokVal (parsingContext tb top) pos)
            else
              let s2 := { s1 with prodSeq := s1.prodSeq ++
                [if production = "ε" then top ++ " -> epsilon"
                 else top ++ " -> " ++ production] }
              match s2.nodeStack with
              | [] => .err .errIndex
              | n :: restN =>
                if production = "ε" then
                  .cont { s2 with nodes := addChildNode s2.nodes n "ε",
                                  stack := restStack, nodeStack := restN }
                else
                  let r := pushSyms n (splitSyms production).reverse
                    (s2.nodes, restStack, restN)
                  .cont { s2 with nodes := r.1, stack := r.2.1,
                                  nodeStack := r.2.2 }

/-- The `while` loop of `parse`, fuel-indexed (`none` only on fuel
exhaustion, which does not occur on the inputs considered here). -/
def parseLoop (tb : PTable) (stream : List Token) :
    Nat → PState → Option (Except ParseErr PState)
  | 0, _ => none
  | fuel + 1, s =>
    match step tb stream s with
    | .done s' => some (.ok s')
    | .err e => some (.error e)
    | .cont s' => parseLoop tb stream fuel s'

/-- The initial parser state of `parse`: the root node, the stack
`deque(['$', 'Start'])` (head = top) and the node stack holding the root. -/
def initPState : PState :=
  ⟨[⟨"Start", [], none, none, none⟩], ["Start", "$"], [0], 0, []⟩

/-- `PredictiveParser.parse` (on success the source returns the tree root;
here the whole final state is returned). -/
def parse (tb : PTable) (stream : List Token) (fuel : Nat) :
    Option (Except ParseErr PState) :=
  parseLoop tb stream fuel initPState

/-! ## Token streams: the driver (`main.py`) feeds `parse` the lexer's
tokens as `(name, value, position)` triples with cumulative positions
(`current_pos += len(token.value) + 1`) and appends the end token. -/

def mkStreamGo : List (String × String) → Nat → List Token
  | [], pos => [("$", "$", pos)]
  | (t, v) :: rest, pos => (t, v, pos) :: mkStreamGo rest (pos + v.length + 1)

/-- Building the token stream the driver hands to `parse`. -/
def mkStream (ts : List (String × String)) : List Token := mkStreamGo ts 0

/-! ## predictive_parser.py: TreeSearcher -/

/-- The upward walk of `get_var_type` inside
`TreeSearcher.find_identifier_definition`: follow parents until an `Id` node
(or the root's `None` parent) is reached. -/
def getVarTypeWalk (ns : List PNode) : Nat → Option Nat → Option Nat
  | _, none => none
  | 0, some i => some i
  | fuel + 1, some i =>
    if (ns.getD i defaultPNode).value = "Id" then some i
    else getVarTypeWalk ns fuel (ns.getD i defaultPNode).parent

/-- `get_var_type`: the reserved-word child of the nearest `Id` ancestor. -/
def getVarType (ns : List PNode) (i : Nat) : Option String :=
  match getVarTypeWalk ns (ns.length + 1) (some i) with
  | none => none
  | some c =>
    ((ns.getD c defaultPNode).children.find? (fun ch =>
        (ns.getD ch defaultPNode).tokenType == some "reservedword")).bind
      (fun ch => (ns.getD ch defaultPNode).tokenValue)

/-- The `while current and current.value == 'Z'` chain walk of `dfs`:
`lIdx` is the `L` node the walk was started from (the `get_var_type` anchor
of the source). -/
def zWalk (ns : List PNode) (ident : String) (lIdx : Nat) :
    Nat → Nat → Option String
  | 0, _ => none
  | fuel + 1, cur =>
    if (ns.getD cur defaultPNode).value = "Z" then
      let pchildren := match (ns.getD cur defaultPNode).parent with
        | some p => (ns.getD p defaultPNode).children
        | none => []
      let hit := pchildren.find? (fun ch =>
        (ns.getD ch defaultPNode).value == "identifier" &&
          (ns.getD ch defaultPNode).tokenValue == some ident)
      let fromHit : Option String := match hit with
        | some _ =>
          match getVarType ns lIdx with
          | some vt => if vt = "" then none else some vt
          | none => none
        | none => none
      match fromHit with
      | some vt => some vt
      | none =>
        match (ns.getD cur defaultPNode).children.find? (fun ch =>
            (ns.getD ch defaultPNode).value == "Z") with
        | some nxt => zWalk ns ident lIdx fuel nxt
        | none => none
    else none

/-- The `dfs` of `find_identifier_definition`, defused into a single
fuel-indexed recursion (`.inl i` visits node `i`, `.inr l` scans the child
list `l`); the fuel bounds the recursion depth, which on arena trees built
by `parse` is at most the arena size. -/
def dfsAux (ns : List PNode) (ident : String) :
    Nat → Sum Nat (List Nat) → Option String
  | 0, _ => none
  | fuel + 1, .inl i =>
    let node := ns.getD i defaultPNode
    let fromL : Option String :=
      if node.value = "L" then
        let direct := node.children.find? (fun ch =>
          (ns.getD ch defaultPNode).value == "identifier" &&
            (ns.getD ch defaultPNode).tokenValue == some ident)
        let r1 : Option String := match direct with
          | some _ =>
            match getVarType ns i with
            | some vt => if vt = "" then none else some vt
            | none => none
          | none => none
        match r1 with
        | some vt => some vt
        | none =>
          match node.children.find? (fun ch =>
              (ns.getD ch defaultPNode).value == "Z") with
          | some z => zWalk ns ident i (ns.length + 1) z
          | none => none
      else none
    match fromL with
    | some vt => some vt
    | none => dfsAux ns ident fuel (.inr node.children)
  | _ + 1, .inr [] => none
  | fuel + 1, .inr (c :: cs) =>
    match dfsAux ns ident fuel (.inl c) with
    | some r => some r
    | none => dfsAux ns ident fuel (.inr cs)

/-- `TreeSearcher.find_identifier_definition`. -/
def findIdentifierDefinition (ns : List PNode) (ident : String) : String :=
  match dfsAux ns ident (4 * ns.length + 8) (.inl 0) with
  | some r => if r = "" then "Not found" else r
  | none => "Not found"

/-! ## predictive_parser.py: ErrorHandler line/column mapping -/

/-- The `line_positions` list built by `ErrorHandler.initialize_source`:
offset 0 and the offset after every newline. -/
def linePosAux : List Char → Nat → List Nat
  | [], _ => []
  | c :: cs, i =>
    if c = '\n' then (i + 1) :: linePosAux cs (i + 1)
    else linePosAux cs (i + 1)

def linePositions (src : String) : List Nat := 0 :: linePosAux src.data 0

/-- The `enumerate(self.line_positions, 1)` loop of `get_line_number`. -/
def glnGo (pos total : Nat) : List Nat → Nat → Nat
  | [], _ => total
  | p :: rest, k => if pos < p then k - 1 else glnGo pos total rest (k + 1)

/-- `ErrorHandler.get_line_number`. -/
def getLineNumber (src : String) (pos : Nat) : Nat :=
  glnGo pos (linePositions src).length (linePositions src) 1

/-- `ErrorHandler.get_column_number`. -/
def getColumnNumber (src : String) (pos : Nat) : Nat :=
  pos - (linePositions src).getD (getLineNumber src pos - 1) 0 + 1

/-! ## Concrete token streams -/

/-- The lexer's token sequence for the canonical program of claim C1:
`#include` and `iostream` are reserved words, `<<` / `>>` / `>=` are single
symbol tokens, the rest as lexed by `LexicalAnalyzer`. -/
def tokensCanonical : List Token := mkStream
  [("reservedword", "#include"), ("symbol", "<"), ("reservedword", "iostream"),
   ("symbol", ">"), ("reservedword", "using"), ("reservedword", "namespace"),
   ("reservedword", "std"), ("symbol", ";"), ("reservedword", "int"),
   ("reservedword", "main"), ("symbol", "("), ("symbol", ")"),
   ("symbol", "\x7b"), ("reservedword", "int"), ("identifier", "x"),
   ("symbol", ";"), ("reservedword", "int"), ("identifier", "s"),
   ("symbol", "="), ("number", "0"), ("symbol", ","), ("identifier", "t"),
   ("symbol", "="), ("number", "10"), ("symbol", ";"),
   ("reservedword", "while"), ("symbol", "("), ("identifier", "t"),
   ("symbol", ">="), ("number", "0"), ("symbol", ")"), ("symbol", "\x7b"),
   ("reservedword", "cin"), ("symbol", ">>"), ("identifier", "x"),
   ("symbol", ";"), ("identifier", "t"), ("symbol", "="), ("identifier", "t"),
   ("symbol", "-"), ("number", "1"), ("symbol", ";"), ("identifier", "s"),
   ("symbol", "="), ("identifier", "s"), ("symbol", "+"), ("identifier", "x"),
   ("symbol", ";"), ("symbol", "\x7d"), ("reservedword", "cout"),
   ("symbol", "<<"), ("string", "\"sum=\""), ("symbol", "<<"),
   ("identifier", "s"), ("symbol", ";"), ("reservedword", "return"),
   ("number", "0"), ("symbol", ";"), ("symbol", "\x7d")]

/-- Token stream of a main body declaring `x` twice (`int x; float x;`). -/
def tokensDouble : List Token := mkStream
  [("reservedword", "int"), ("reservedword", "main"), ("symbol", "("),
   ("symbol", ")"), ("symbol", "\x7b"), ("reservedword", "int"),
   ("identifier", "x"), ("symbol", ";"), ("reservedword", "float"),
   ("identifier", "x"), ("symbol", ";"), ("symbol", "\x7d")]

/-- Token stream of a main body with the comma-separated declaration list
`int s=0,t=10;`. -/
def tokensComma : List Token := mkStream
  [("reservedword", "int"), ("reservedword", "main"), ("symbol", "("),
   ("symbol", ")"), ("symbol", "\x7b"), ("reservedword", "int"),
   ("identifier", "s"), ("symbol", "="), ("number", "0"), ("symbol", ","),
   ("identifier", "t"), ("symbol", "="), ("number", "10"), ("symbol", ";"),
   ("symbol", "\x7d")]

/-- Token stream of a main body with the `<<` after `cout` missing
(`cout "sum="<<s;`). -/
def tokensCout : List Token := mkStream
  [("reservedword", "int"), ("reservedword", "main"), ("symbol", "("),
   ("symbol", ")"), ("symbol", "\x7b"), ("reservedword", "cout"),
   ("string", "\"sum=\""), ("symbol", "<<"), ("identifier", "s"),
   ("symbol", ";"), ("symbol", "\x7d")]

/-- Token stream of an empty main body. -/
def tokensSmall : List Token := mkStream
  [("reservedword", "int"), ("reservedword", "main"), ("symbol", "("),
   ("symbol", ")"), ("symbol", "\x7b"), ("symbol", "\x7d")]

/-- A stream beginning with the reserved word `void`, whose classified
terminal is outside the parse table's terminal set. -/
def tokensVoid : List Token := mkStream [("reservedword", "void")]

/-- The parse tree (arena) produced for `tokensDouble`. -/
def treeDouble : List PNode :=
  match parse table0 tokensDouble 300 with
  | some (.ok s) => s.nodes
  | _ => []

/-- The parse tree (arena) produced for `tokensComma`. -/
def treeComma : List PNode :=
  match parse table0 tokensComma 300 with
  | some (.ok s) => s.nodes
  | _ => []

/-! ## Derived definitions used by the verification -/

/-- Whether `parse` succeeded on a stream (used to state that a tree is a
successfully built parse tree). -/
def parseSucceeds (stream : List Token) : Bool :=
  match parse table0 stream 300 with
  | some (.ok _) => true
  | _ => false

/-! ## Arena access and the effect of `addChildNode` / `pushSyms` -/

/-- Reading an arena node (out-of-range indices give the default node). -/
def nodeAt (ns : List PNode) (i : Nat) : PNode := ns.getD i defaultPNode

/-- The arena component of the expansion loop: one `addChildNode` per symbol
of the (already reversed) list. -/

def expandArena (ns : List PNode) (p : Nat) : List String → List PNode
  | [] => ns
  | a :: l => expandArena (addChildNode ns p a) p l

def keysOf (ws : List (String × String × String)) : List (String × String) :=
  ws.map (fun w => (w.1, w.2.1))

/-- The full ordered write list of `build_parse_table` over a grammar. -/
def writesOf (g : List (String × List String)) : List (String × String × String) :=
  grammarWrites (computeFirstSets g) (computeFollowSets g (computeFirstSets g)) g

def writeKeys (g : List (String × List String)) : List (String × String) :=
  keysOf (writesOf g)

/-! ## C10 machinery: parent/child well-formedness of the arena -/

/-- Well-formedness of a parse-tree arena: the root (index 0) has no parent;
every other node's parent is an earlier node whose children list contains it;
and every child reference points to a valid non-root node whose parent field
is exactly the referencing node. -/

def wfArena (ns : List PNode) : Prop :=
  0 < ns.length ∧
  (nodeAt ns 0).parent = none ∧
  ∀ i, i < ns.length →
    ((i ≠ 0 → ∃ j, j < i ∧ (nodeAt ns i).parent = some j ∧
        i ∈ (nodeAt ns j).children) ∧
     ∀ c ∈ (nodeAt ns i).children,
       c < ns.length ∧ c ≠ 0 ∧ (nodeAt ns c).parent = some i)

/-- Well-formedness of a parser state: the arena is well-formed and the node
stack holds valid arena indices. -/

def stateWf (s : PState) : Prop :=
  wfArena s.nodes ∧ ∀ n ∈ s.nodeStack, n < s.nodes.length

/-- Following parent pointers upward, with fuel. -/
def walkRoot (ns : List PNode) : Nat → Nat → Option Nat
  | 0, _ => none
  | fuel + 1, i =>
    match (nodeAt ns i).parent with
    | none => some i
    | some j => walkRoot ns fuel j

instance wfArena_decidable (ns : List PNode) : Decidable (wfArena ns) := by
  unfold wfArena; infer_instance

instance stateWf_decidable (s : PState) : Decidable (stateWf s) := by
  unfold stateWf; infer_instance

/-! ## C4 machinery: the spec's FIRST/FOLLOW rules as least fixed points -/

/-- A family of sets of terminals indexed by symbol. -/
abbrev SetFam := String → Set String

/-- Membership in FIRST of a symbol string over an abstract family `S`,
following the spec's rules: a leading terminal contributes itself and stops;
a non-terminal contributes its FIRST minus ε and the scan continues only if
it is nullable; if the whole string is nullable, ε is contributed. -/

def memFirstOfStringSet (S : SetFam) : List String → String → Prop
  | [], x => x = "ε"
  | sym :: rest, x =>
    if isTerminalSymbol sym then x = sym
    else ((x ∈ S sym ∧ x ≠ "ε") ∨ ("ε" ∈ S sym ∧ memFirstOfStringSet S rest x))

/-- A family closed under the spec's FIRST rules: for every production
`nt → prod` of the fixed grammar, FIRST of the production body is contained
in the family's set for `nt`. -/

def FirstClosed (S : SetFam) : Prop :=
  ∀ nt prods, (nt, prods) ∈ grammarList → ∀ prod ∈ prods,
    ∀ x, memFirstOfStringSet S (splitSyms prod) x → x ∈ S nt

/-- The least fixed point of the spec's FIRST rules: the intersection of all
closed families. -/

def specFIRST : SetFam := fun nt => { x | ∀ S, FirstClosed S → x ∈ S nt }

/-- A family closed under the spec's FOLLOW rules (relative to the FIRST
least fixed point): `$` is in FOLLOW(Start), and for every occurrence of a
non-terminal `B` in a production `nt → α B β`, FIRST(β) minus ε is contained
in the family's set for `B`, and if β is nullable the set for `nt` is
contained in the set for `B`. -/

def FollowClosed (S : SetFam) : Prop :=
  "$" ∈ S "Start" ∧
  ∀ nt prods, (nt, prods) ∈ grammarList → ∀ prod ∈ prods,
    ∀ i B, (splitSyms prod).get? i = some B → B ∈ nonTerminalsList →
      (∀ x, memFirstOfStringSet specFIRST ((splitSyms prod).drop (i + 1)) x →
        x ≠ "ε" → x ∈ S B) ∧
      (memFirstOfStringSet specFIRST ((splitSyms prod).drop (i + 1)) "ε" →
        ∀ y, y ∈ S nt → y ∈ S B)

/-- The least fixed point of the spec's FOLLOW rules. -/
def specFOLLOW : SetFam := fun nt => { x | ∀ S, FollowClosed S → x ∈ S nt }

/-- Pointwise containment of a set-map in an abstract family. -/
def mapBelow (fs : SMap) (S : SetFam) : Prop :=
  ∀ k x, x ∈ getSet fs k → x ∈ S k

/-- The FOLLOW closure conditions restricted to a suffix of a production
body (used to recurse along `followScan`). -/

def SuffixClosed (S : SetFam) (nt : String) (syms : List String) : Prop :=
  ∀ i B, syms.get? i = some B → B ∈ nonTerminalsList →
    (∀ x, memFirstOfStringSet specFIRST (syms.drop (i + 1)) x →
      x ≠ "ε" → x ∈ S B) ∧
    (memFirstOfStringSet specFIRST (syms.drop (i + 1)) "ε" →
      ∀ y, y ∈ S nt → y ∈ S B)

/-- The state after the first engine step on `tokensSmall` (the expansion of
`Start` by the production `S N M`). -/
def stepSmall1 : PState :=
  match step table0 tokensSmall initPState with
  | .cont s => s
  | _ => initPState

/-! ## Theorems -/

/-- The snapshot `firstSets0` is exactly what `compute_first_sets` computes
on the fixed grammar. -/
lemma firstSets0_spec : computeFirstSets grammarList = firstSets0 := by decide

/-- The snapshot `followSets0` is exactly what `compute_follow_sets` computes
on the fixed grammar. -/
lemma followSets0_spec :
    computeFollowSets grammarList firstSets0 = followSets0 := by decide

/-- Parse-table construction on the fixed grammar succeeds and produces the
snapshot `table0`. -/
lemma table0_spec : buildParseTable grammarList = .ok table0 := by rfl

lemma addChildNode_length (ns : List PNode) (p : Nat) (v : String) :
    (addChildNode ns p v).length = ns.length + 1 := by
  simp [addChildNode]

lemma nodeAt_addChildNode_old {ns : List PNode} {p i : Nat} (v : String)
    (h : i < ns.length) (hne : i ≠ p) :
    nodeAt (addChildNode ns p v) i = nodeAt ns i := by
  unfold nodeAt addChildNode
  simp only [List.getD_eq_getElem?_getD]
  rw [List.getElem?_append_left (by simpa using h),
    List.getElem?_set_ne (by omega)]

lemma nodeAt_addChildNode_self {ns : List PNode} {p : Nat} (v : String)
    (h : p < ns.length) :
    nodeAt (addChildNode ns p v) p =
      { nodeAt ns p with children := (nodeAt ns p).children ++ [ns.length] } := by
  unfold nodeAt addChildNode
  simp only [List.getD_eq_getElem?_getD]
  rw [List.getElem?_append_left (by simpa using h),
    List.getElem?_set_self (by simpa using h)]
  simp [List.getD_eq_getElem?_getD]

lemma nodeAt_addChildNode_new (ns : List PNode) (p : Nat) (v : String) :
    nodeAt (addChildNode ns p v) ns.length = ⟨v, [], some p, none, none⟩ := by
  unfold nodeAt addChildNode
  simp only [List.getD_eq_getElem?_getD]
  rw [List.getElem?_append_right (by simp)]
  simp

lemma pushSyms_eq (p : Nat) :
    ∀ (l : List String) ns stk nstk,
      pushSyms p l (ns, stk, nstk) =
        (expandArena ns p l, l.reverse ++ stk,
          (List.range' ns.length l.length).reverse ++ nstk)
  | [], ns, stk, nstk => by simp [pushSyms, expandArena]
  | a :: l, ns, stk, nstk => by
    show pushSyms p l (addChildNode ns p a, a :: stk, ns.length :: nstk) = _
    rw [pushSyms_eq p l]
    rw [show (a :: l).length = l.length + 1 from rfl, List.range'_succ,
      addChildNode_length]
    simp [expandArena]

lemma expandArena_length (p : Nat) :
    ∀ (l : List String) ns, (expandArena ns p l).length = ns.length + l.length
  | [], ns => by simp [expandArena]
  | a :: l, ns => by
    show (expandArena (addChildNode ns p a) p l).length = _
    rw [expandArena_length p l, addChildNode_length]
    simp [Nat.add_comm, Nat.add_assoc, Nat.add_left_comm]

lemma nodeAt_expandArena_old {p : Nat} :
    ∀ (l : List String) ns i, i < ns.length → i ≠ p →
      nodeAt (expandArena ns p l) i = nodeAt ns i
  | [], ns, i, _, _ => rfl
  | a :: l, ns, i, h, hne => by
    show nodeAt (expandArena (addChildNode ns p a) p l) i = _
    rw [nodeAt_expandArena_old l _ i (by rw [addChildNode_length]; omega) hne,
      nodeAt_addChildNode_old a h hne]

lemma nodeAt_expandArena_self {p : Nat} :
    ∀ (l : List String) ns, p < ns.length →
      nodeAt (expandArena ns p l) p =
        { nodeAt ns p with children :=
            (nodeAt ns p).children ++ List.range' ns.length l.length }
  | [], ns, _ => by simp [expandArena]
  | a :: l, ns, h => by
    show nodeAt (expandArena (addChildNode ns p a) p l) p = _
    rw [nodeAt_expandArena_self l _ (by rw [addChildNode_length]; omega),
      nodeAt_addChildNode_self a h, addChildNode_length]
    rw [show (a :: l).length = l.length + 1 from rfl, List.range'_succ]
    simp

lemma nodeAt_expandArena_new {p : Nat} :
    ∀ (l : List String) ns i, p < ns.length → i < l.length →
      nodeAt (expandArena ns p l) (ns.length + i) =
        ⟨l.getD i "", [], some p, none, none⟩
  | a :: l, ns, 0, hp, _ => by
    show nodeAt (expandArena (addChildNode ns p a) p l) ns.length = _
    rw [nodeAt_expandArena_old l _ ns.length
        (by rw [addChildNode_length]; omega) (by omega),
      nodeAt_addChildNode_new]
    rfl
  | a :: l, ns, i + 1, hp, hi => by
    show nodeAt (expandArena (addChildNode ns p a) p l) (ns.length + (i + 1)) = _
    have hp' : p < (addChildNode ns p a).length := by
      rw [addChildNode_length]; omega
    have hi' : i < l.length := by
      have : (a :: l).length = l.length + 1 := rfl
      omega
    have h := nodeAt_expandArena_new l (addChildNode ns p a) i hp' hi'
    rw [addChildNode_length] at h
    rw [show ns.length + (i + 1) = ns.length + 1 + i by omega, h]
    rfl

lemma expandArena_values {p : Nat} :
    ∀ (l : List String) ns, p < ns.length →
      (List.range' ns.length l.length).map
        (fun j => (nodeAt (expandArena ns p l) j).value) = l
  | [], ns, _ => by simp
  | a :: l, ns, hp => by
    have h1 : nodeAt (expandArena ns p (a :: l)) ns.length =
        ⟨a, [], some p, none, none⟩ := by
      show nodeAt (expandArena (addChildNode ns p a) p l) ns.length = _
      rw [nodeAt_expandArena_old l _ ns.length
          (by rw [addChildNode_length]; omega) (by omega),
        nodeAt_addChildNode_new]
    have h2 := expandArena_values l (addChildNode ns p a) (p := p)
      (by rw [addChildNode_length]; omega)
    rw [addChildNode_length] at h2
    rw [show (a :: l).length = l.length + 1 from rfl, List.range'_succ]
    simp only [List.map_cons, h1]
    exact congrArg₂ List.cons rfl h2

/-- C5 as amended: when the engine expands the top non-terminal by a non-ε
production, the production's symbols end up on the symbol stack in
left-to-right production order, the node stack receives the indices of the
freshly created nodes aligned with the symbol stack (mapping the node stack
through node values yields exactly the symbol stack), and the popped node's
children list receives one new node per production symbol — but in REVERSE
production order (the fresh indices carry the reversed symbol list), contrary
to the claim's left-to-right order; see `c5_counterexample`. -/
theorem c5_expansion_alignment
    (tb : PTable) (stream : List Token) (s s' : PState)
    (top : String) (restS : List String) (n : Nat) (restN : List Nat)
    (tokType tokVal : String) (pos : Nat) (terminal : String) (idx' : Nat)
    (production : String)
    (hstack : s.stack = top :: restS)
    (hnstack : s.nodeStack = n :: restN)
    (hn : n < s.nodes.length)
    (htok : stream.get? s.idx = some (tokType, tokVal, pos))
    (hterm : getTerminalSymbol stream s.idx tokType tokVal = (some terminal, idx'))
    (hnd : ¬(top = "$" ∧ terminal = "$"))
    (hne : top ≠ terminal)
    (hgk : grammarKeys.contains top = true)
    (hentry : getParseTableEntry tb top terminal = .ok production)
    (hprodne : production ≠ "")
    (hprodeps : production ≠ "ε")
    (hstep : step tb stream s = .cont s') :
    s'.stack = splitSyms production ++ restS ∧
    s'.nodeStack =
      (List.range' s.nodes.length (splitSyms production).length).reverse ++ restN ∧
    (nodeAt s'.nodes n).children = (nodeAt s.nodes n).children ++
      List.range' s.nodes.length (splitSyms production).length ∧
    (List.range' s.nodes.length (splitSyms production).length).map
      (fun j => (nodeAt s'.nodes j).value) = (splitSyms production).reverse ∧
    s'.nodeStack.map (fun j => (nodeAt s'.nodes j).value) =
      splitSyms production ++ restN.map (fun j => (nodeAt s'.nodes j).value) := by
  obtain ⟨nodes, stack, nstk, idx, pseq⟩ := s
  simp only at hstack hnstack hn htok hterm
  subst hstack hnstack
  unfold step at hstep
  simp only [htok, hterm, if_neg hnd, if_neg hne] at hstep
  rw [if_neg (by rw [hgk]; simp)] at hstep
  simp only [hentry, if_neg hprodne, if_neg hprodeps] at hstep
  rw [pushSyms_eq] at hstep
  cases hstep
  simp only [List.reverse_reverse, List.length_reverse]
  refine ⟨trivial, trivial, ?_, ?_, ?_⟩
  · have h := nodeAt_expandArena_self (p := n) (splitSyms production).reverse nodes hn
    rw [List.length_reverse] at h
    rw [h]
  · have h := expandArena_values (p := n) (splitSyms production).reverse nodes hn
    rw [List.length_reverse] at h
    exact h
  · have h := expandArena_values (p := n) (splitSyms production).reverse nodes hn
    rw [List.length_reverse] at h
    rw [List.map_append, List.map_reverse, h, List.reverse_reverse]

lemma step_preserves_depth (tb : PTable) (stream : List Token) (s s' : PState)
    (hinv : s.stack.length = s.nodeStack.length + 1)
    (hstep : step tb stream s = .cont s') :
    s'.stack.length = s'.nodeStack.length + 1 := by
  obtain ⟨nodes, stack, nstk, idx, pseq⟩ := s
  simp only at hinv
  rcases stack with _ | ⟨top, restS⟩
  · simp [step] at hstep
  rcases hg : stream.get? idx with _ | ⟨⟨tokType, tokVal, pos⟩⟩ <;>
    simp only [step, hg] at hstep
  · cases hstep
  rcases hc : getTerminalSymbol stream idx tokType tokVal with ⟨tOpt, idx2⟩
  simp only [hc] at hstep
  rcases tOpt with _ | terminal
  · -- skip signal: stacks unchanged
    cases hstep
    simpa using hinv
  by_cases h1 : top = "$" ∧ terminal = "$"
  · simp only [if_pos h1] at hstep; cases hstep
  simp only [if_neg h1] at hstep
  by_cases h2 : top = terminal
  · simp only [if_pos h2] at hstep
    rcases nstk with _ | ⟨n, restN⟩
    · cases hstep
    · cases hstep
      simp only [List.length_cons] at hinv ⊢
      omega
  simp only [if_neg h2] at hstep
  by_cases h3 : grammarKeys.contains top = false
  · simp only [if_pos h3] at hstep; cases hstep
  simp only [if_neg h3] at hstep
  rcases he : getParseTableEntry tb top terminal with e | production <;>
    simp only [he] at hstep
  · cases hstep
  by_cases h4 : production = ""
  · simp only [if_pos h4] at hstep; cases hstep
  simp only [if_neg h4] at hstep
  rcases nstk with _ | ⟨n, restN⟩
  · cases hstep
  by_cases h5 : production = "ε"
  · simp only [if_pos h5] at hstep
    cases hstep
    simp only [List.length_cons] at hinv ⊢
    omega
  · simp only [if_neg h5] at hstep
    rw [pushSyms_eq] at hstep
    cases hstep
    simp only [List.length_cons] at hinv
    simp only [List.length_append, List.length_reverse, List.length_range']
    omega

lemma mem_insertStr {x y : String} : ∀ {l : List String},
    x ∈ insertStr y l ↔ x = y ∨ x ∈ l
  | [] => by simp [insertStr]
  | z :: zs => by
    unfold insertStr
    by_cases h : strLe y z = true
    · simp [h]
    · simp only [if_neg h, List.mem_cons, mem_insertStr (l := zs)]
      tauto

lemma mem_sortStrings {x : String} : ∀ {l : List String},
    x ∈ sortStrings l ↔ x ∈ l := by
  intro l
  induction l with
  | nil => simp [sortStrings]
  | cons y ys ih =>
    show x ∈ insertStr y (sortStrings ys) ↔ _
    rw [mem_insertStr]
    simp [ih]

lemma mem_parsingContext {tb : PTable} {nt t : String} :
    t ∈ parsingContext tb nt ↔
      t ∈ terminalsList ∧ ((cellGet tb nt t).getD "") ≠ "" := by
  unfold parsingContext
  rw [mem_sortStrings, List.mem_filter]
  simp

lemma step_no_entry_error (tb : PTable) (stream : List Token) (s : PState)
    (top : String) (restS : List String)
    (tokType tokVal : String) (pos : Nat) (terminal : String) (idx' : Nat)
    (hstack : s.stack = top :: restS)
    (htok : stream.get? s.idx = some (tokType, tokVal, pos))
    (hterm : getTerminalSymbol stream s.idx tokType tokVal = (some terminal, idx'))
    (hnd : ¬(top = "$" ∧ terminal = "$"))
    (hne : top ≠ terminal)
    (hgk : grammarKeys.contains top = true)
    (hentry : getParseTableEntry tb top terminal = .ok "") :
    step tb stream s = .err (.errList tokVal (parsingContext tb top) pos) := by
  obtain ⟨nodes, stack, nstk, idx, pseq⟩ := s
  simp only at hstack htok hterm
  subst hstack
  unfold step
  simp only [htok, hterm, if_neg hnd, if_neg hne]
  rw [if_neg (by rw [hgk]; simp)]
  simp only [hentry]
  simp

lemma parseLoop_first_error (tb : PTable) (stream : List Token) (fuel : Nat) (s : PState)
    (e : ParseErr) (h : step tb stream s = .err e) :
    parseLoop tb stream (fuel + 1) s = some (.error e) := by
  unfold parseLoop
  rw [h]

/-! ## C3 machinery: table writes and conflicts -/

lemma lookup_cons_ne {β : Type} {pk k' : String} (pv : β)
    (l : List (String × β)) (h : k' ≠ pk) :
    ((pk, pv) :: l).lookup k' = l.lookup k' := by
  rw [List.lookup_cons, show (k' == pk) = false from by simp [h]]

lemma lookup_map_update {β : Type} (f : β → β) (k : String) :
    ∀ (l : List (String × β)) (k' : String),
      (l.map (fun p => if p.1 = k then (k, f p.2) else p)).lookup k' =
        if k' = k then (l.lookup k).map f else l.lookup k'
  | [], k' => by simp
  | ⟨pk, pv⟩ :: l, k' => by
    simp only [List.map_cons]
    by_cases hp : pk = k
    · rw [if_pos (show (⟨pk, pv⟩ : String × β).1 = k from hp)]
      subst hp
      by_cases hk : k' = pk
      · subst hk
        rw [if_pos rfl]
        simp
      · rw [if_neg hk, lookup_cons_ne _ _ hk, lookup_cons_ne _ _ hk,
          lookup_map_update f pk l k', if_neg hk]
    · rw [if_neg (show ¬(⟨pk, pv⟩ : String × β).1 = k from hp)]
      by_cases hk : k' = pk
      · subst hk
        rw [if_neg hp, List.lookup_cons_self, List.lookup_cons_self]
      · rw [lookup_cons_ne _ _ hk, lookup_map_update f k l k',
          lookup_cons_ne _ _ hk,
          lookup_cons_ne _ _ (fun h => hp h.symm)]

lemma cellGet_setCell (tb : PTable) (A t v A' t' : String) :
    cellGet (setCell tb A t v) A' t' =
      if A' = A ∧ t' = t then (cellGet tb A t).map (fun _ => v)
      else cellGet tb A' t' := by
  unfold cellGet setCell
  rw [lookup_map_update (fun row => row.map fun c => if c.1 = t then (t, v) else c) A tb A']
  by_cases hA : A' = A
  · subst hA
    rw [if_pos rfl]
    cases h : tb.lookup A' with
    | none => simp [h]
    | some row =>
      simp only [Option.map_some', Option.some_bind]
      rw [lookup_map_update (fun _ => v) t row t']
      by_cases ht : t' = t
      · subst ht; simp [h]
      · simp [ht, h]
  · simp [hA]

lemma cellGet_setCell_isSome (tb : PTable) (A t v A' t' : String) :
    (cellGet (setCell tb A t v) A' t').isSome = (cellGet tb A' t').isSome := by
  rw [cellGet_setCell]
  by_cases h : A' = A ∧ t' = t
  · rcases h with ⟨h1, h2⟩
    subst h1; subst h2
    simp
  · rw [if_neg h]

lemma applyWrites_append :
    ∀ (xs ys : List (String × String × String)) (tb : PTable),
      applyWrites tb (xs ++ ys) =
        match applyWrites tb xs with
        | .ok tb1 => applyWrites tb1 ys
        | .error e => .error e
  | [], ys, tb => rfl
  | (A, t, v) :: xs, ys, tb => by
    have heq : ∀ (tb' : PTable) (l : List (String × String × String)),
        applyWrites tb' ((A, t, v) :: l) =
          if ((cellGet tb' A t).getD "") ≠ "" then .error (A, t)
          else applyWrites (setCell tb' A t v) l := fun _ _ => rfl
    rw [List.cons_append, heq, heq]
    by_cases h : ((cellGet tb A t).getD "") ≠ ""
    · rw [if_pos h, if_pos h]
    · rw [if_neg h, if_neg h]
      exact applyWrites_append xs ys (setCell tb A t v)

lemma applyWrites_ok_iff :
    ∀ (ws : List (String × String × String)) (tb : PTable),
      (∀ w ∈ ws, w.2.2 ≠ "" ∧ (cellGet tb w.1 w.2.1).isSome = true) →
      ((∃ tb', applyWrites tb ws = .ok tb') ↔
        ((keysOf ws).Nodup ∧ ∀ w ∈ ws, (cellGet tb w.1 w.2.1).getD "" = ""))
  | [], tb, _ => by
    constructor
    · intro _; exact ⟨List.nodup_nil, by simp⟩
    · intro _; exact ⟨tb, rfl⟩
  | (A, t, v) :: ws, tb, H => by
    have Hhead := H (A, t, v) (by simp)
    by_cases hocc : ((cellGet tb A t).getD "") ≠ ""
    · constructor
      · intro ⟨tb', h⟩
        unfold applyWrites at h
        rw [if_pos hocc] at h
        cases h
      · intro ⟨_, hall⟩
        exact absurd (hall (A, t, v) (by simp)) hocc
    · push_neg at hocc
      have hIH := applyWrites_ok_iff ws (setCell tb A t v) (by
        intro w hw
        refine ⟨(H w (by simp [hw])).1, ?_⟩
        rw [cellGet_setCell_isSome]
        exact (H w (by simp [hw])).2)
      have heq : applyWrites tb ((A, t, v) :: ws) =
          if ((cellGet tb A t).getD "") ≠ "" then .error (A, t)
          else applyWrites (setCell tb A t v) ws := rfl
      have hstep : applyWrites tb ((A, t, v) :: ws) =
          applyWrites (setCell tb A t v) ws := by
        rw [heq, if_neg (by simp [hocc])]
      have hcell : ∀ w ∈ ws,
          ((cellGet (setCell tb A t v) w.1 w.2.1).getD "" = "" ↔
            ((w.1, w.2.1) ≠ (A, t) ∧ (cellGet tb w.1 w.2.1).getD "" = "")) := by
        intro w hw
        rw [cellGet_setCell]
        by_cases hk : w.1 = A ∧ w.2.1 = t
        · rw [if_pos hk]
          have hs := (H w (by simp [hw])).2
          rcases ho : cellGet tb A t with _ | x
          · rcases hk with ⟨h1, h2⟩
            rw [h1, h2, ho] at hs
            simp at hs
          · simp only [Option.map_some', Option.getD_some]
            constructor
            · intro hv; exact absurd hv (H (A, t, v) (by simp)).1
            · intro ⟨hne, _⟩
              exact absurd (show (w.1, w.2.1) = (A, t) by rw [hk.1, hk.2]) hne
        · rw [if_neg hk]
          constructor
          · intro h; exact ⟨fun he => hk ⟨congrArg Prod.fst he, congrArg Prod.snd he⟩, h⟩
          · intro ⟨_, h⟩; exact h
      rw [hstep, hIH]
      constructor
      · intro ⟨hnd, hall⟩
        refine ⟨?_, ?_⟩
        · show ((A, t) :: keysOf ws).Nodup
          rw [List.nodup_cons]
          refine ⟨?_, hnd⟩
          intro hmem
          rcases List.mem_map.mp hmem with ⟨w, hw, hkey⟩
          have := (hcell w hw).mp (hall w hw)
          exact this.1 hkey
        · intro w hw
          rcases List.mem_cons.mp hw with h | h
          · rw [h]; exact hocc
          · exact ((hcell w h).mp (hall w h)).2
      · intro ⟨hnd, hall⟩
        rw [show keysOf ((A, t, v) :: ws) = (A, t) :: keysOf ws from rfl,
          List.nodup_cons] at hnd
        refine ⟨hnd.2, ?_⟩
        intro w hw
        refine (hcell w hw).mpr ⟨?_, hall w (by simp [hw])⟩
        intro hkey
        exact hnd.1 (List.mem_map.mpr ⟨w, hw, hkey⟩)

lemma applyWrites_error_count :
    ∀ (ws : List (String × String × String)) (tb : PTable) (A t : String),
      applyWrites tb ws = .error (A, t) →
      (((cellGet tb A t).getD "" ≠ "" ∧ (A, t) ∈ keysOf ws) ∨
        2 ≤ (keysOf ws).count (A, t))
  | [], tb, A, t, h => by cases h
  | (A0, t0, v0) :: ws, tb, A, t, h => by
    have heq : applyWrites tb ((A0, t0, v0) :: ws) =
        if ((cellGet tb A0 t0).getD "") ≠ "" then .error (A0, t0)
        else applyWrites (setCell tb A0 t0 v0) ws := rfl
    rw [heq] at h
    by_cases hocc : ((cellGet tb A0 t0).getD "") ≠ ""
    · rw [if_pos hocc] at h
      injection h with h'
      injection h' with h1 h2
      subst h1; subst h2
      exact Or.inl ⟨hocc, by simp [keysOf]⟩
    · rw [if_neg hocc] at h
      rcases applyWrites_error_count ws (setCell tb A0 t0 v0) A t h with ⟨hocc', hmem⟩ | hcount
      · rw [cellGet_setCell] at hocc'
        by_cases hk : A = A0 ∧ t = t0
        · refine Or.inr ?_
          have h1 : (keysOf ((A0, t0, v0) :: ws)).count (A, t) =
              (keysOf ws).count (A, t) + 1 := by
            show ((A0, t0) :: keysOf ws).count (A, t) = _
            rw [List.count_cons]
            simp [hk.1, hk.2]
          have h2 : 1 ≤ (keysOf ws).count (A, t) :=
            List.one_le_count_iff.mpr hmem
          omega
        · rw [if_neg hk] at hocc'
          exact Or.inl ⟨hocc', by simp [keysOf] at hmem ⊢; exact Or.inr hmem⟩
      · refine Or.inr ?_
        have : (keysOf ws).count (A, t) ≤ (keysOf ((A0, t0, v0) :: ws)).count (A, t) := by
          show _ ≤ ((A0, t0) :: keysOf ws).count (A, t)
          rw [List.count_cons]
          omega
        omega

lemma buildProds_eq (firsts follows : SMap) (nt : String) :
    ∀ (prods : List String) (tb : PTable),
      buildProds firsts follows nt prods tb =
        applyWrites tb ((prods.map (prodWrites firsts follows nt)).flatten)
  | [], tb => rfl
  | p :: ps, tb => by
    have hsplit : (((p :: ps).map (prodWrites firsts follows nt)).flatten :
        List (String × String × String)) =
        prodWrites firsts follows nt p ++
          ((ps.map (prodWrites firsts follows nt)).flatten) := by simp
    rw [hsplit, applyWrites_append]
    show (match applyWrites tb (prodWrites firsts follows nt p) with
      | Except.error e => Except.error e
      | Except.ok tb1 => buildProds firsts follows nt ps tb1) = _
    cases applyWrites tb (prodWrites firsts follows nt p) with
    | error e => rfl
    | ok tb1 => exact buildProds_eq firsts follows nt ps tb1

lemma buildGo_eq (firsts follows : SMap) :
    ∀ (g : List (String × List String)) (tb : PTable),
      buildGo firsts follows g tb =
        applyWrites tb (grammarWrites firsts follows g)
  | [], tb => rfl
  | (nt, prods) :: g, tb => by
    show (match buildProds firsts follows nt prods tb with
      | Except.error e => Except.error e
      | Except.ok tb1 => buildGo firsts follows g tb1) = _
    rw [show grammarWrites firsts follows ((nt, prods) :: g) =
      ((prods.map (prodWrites firsts follows nt)).flatten) ++
        grammarWrites firsts follows g from rfl]
    rw [applyWrites_append, buildProds_eq]
    cases applyWrites tb ((prods.map (prodWrites firsts follows nt)).flatten) with
    | error e => rfl
    | ok tb1 => exact buildGo_eq firsts follows g tb1

lemma buildParseTable_eq_applyWrites (g : List (String × List String)) :
    buildParseTable g = applyWrites initPTable (writesOf g) :=
  buildGo_eq _ _ g initPTable

lemma lookup_map_pair {β : Type} (f : String → β) :
    ∀ (l : List String) (k : String),
      (l.map (fun x => (x, f x))).lookup k =
        if k ∈ l then some (f k) else none
  | [], k => by simp
  | x :: l, k => by
    by_cases hk : k = x
    · subst hk
      simp [List.lookup_cons_self]
    · rw [List.map_cons, lookup_cons_ne _ _ hk, lookup_map_pair f l k]
      by_cases hm : k ∈ l
      · simp [hm, hk]
      · simp [hm, hk]

lemma cellGet_initPTable (A t : String) :
    cellGet initPTable A t =
      if A ∈ nonTerminalsList ∧ t ∈ terminalsList then some "" else none := by
  unfold cellGet initPTable
  rw [lookup_map_pair (fun _ => terminalsList.map (fun t => (t, ""))) nonTerminalsList A]
  by_cases hA : A ∈ nonTerminalsList
  · rw [if_pos hA]
    simp only [Option.some_bind]
    rw [lookup_map_pair (fun _ => "") terminalsList t]
    by_cases ht : t ∈ terminalsList
    · simp [hA, ht]
    · simp [hA, ht]
  · simp [hA]

lemma initPTable_unocc (A t : String) :
    (cellGet initPTable A t).getD "" = "" := by
  rw [cellGet_initPTable]
  by_cases h : A ∈ nonTerminalsList ∧ t ∈ terminalsList
  · rw [if_pos h]; rfl
  · rw [if_neg h]; rfl

lemma initPTable_isSome {A t : String} (hA : A ∈ nonTerminalsList)
    (ht : t ∈ terminalsList) : (cellGet initPTable A t).isSome = true := by
  rw [cellGet_initPTable, if_pos ⟨hA, ht⟩]; rfl

/-- C3: parse-table construction on the fixed grammar succeeds (producing
the snapshot table) with zero conflicts, its full write sequence has no
duplicate (non-terminal, terminal) cell; and in general, for any grammar
whose writes carry non-empty productions into genuine table cells,
construction succeeds if and only if no two writes target the same cell,
and a conflict error names a cell written at least twice. -/
theorem c3_conflict_detection :
    buildParseTable grammarList = .ok table0 ∧
    (writeKeys grammarList).Nodup ∧
    (∀ g, (∀ w ∈ writesOf g,
        w.2.2 ≠ "" ∧ w.1 ∈ nonTerminalsList ∧ w.2.1 ∈ terminalsList) →
      (((∃ tb, buildParseTable g = .ok tb) ↔ (writeKeys g).Nodup) ∧
       ∀ A t, buildParseTable g = .error (A, t) →
         2 ≤ (writeKeys g).count (A, t))) := by
  refine ⟨table0_spec, by decide, ?_⟩
  intro g hg
  constructor
  · rw [buildParseTable_eq_applyWrites]
    rw [applyWrites_ok_iff (writesOf g) initPTable (by
      intro w hw
      exact ⟨(hg w hw).1, initPTable_isSome (hg w hw).2.1 (hg w hw).2.2⟩)]
    constructor
    · intro h; exact h.1
    · intro h; exact ⟨h, fun w _ => initPTable_unocc w.1 w.2.1⟩
  · intro A t h
    rw [buildParseTable_eq_applyWrites] at h
    rcases applyWrites_error_count (writesOf g) initPTable A t h with ⟨hocc, _⟩ | hc
    · exact absurd (initPTable_unocc A t) hocc
    · exact hc

/-! ## C9 machinery: line/column mapping -/

lemma glnGo_spec : ∀ (l : List Nat) (pos total k : Nat),
    glnGo pos total l k =
      if (l.takeWhile (fun p => decide (p ≤ pos))).length = l.length then total
      else k + (l.takeWhile (fun p => decide (p ≤ pos))).length - 1
  | [], pos, total, k => by simp [glnGo]
  | p :: rest, pos, total, k => by
    unfold glnGo
    by_cases h : pos < p
    · rw [if_pos h, List.takeWhile_cons_of_neg (by simp; omega)]
      simp only [List.length_nil, List.length_cons]
      rw [if_neg (by omega)]
      omega
    · rw [if_neg h, glnGo_spec rest pos total (k + 1),
        List.takeWhile_cons_of_pos (by simp; omega)]
      simp only [List.length_cons]
      by_cases h2 : (rest.takeWhile (fun p => decide (p ≤ pos))).length = rest.length
      · rw [if_pos h2, if_pos (by omega)]
      · rw [if_neg h2, if_neg (by omega)]
        omega

lemma takeWhile_head_pos (src : String) (pos : Nat) :
    1 ≤ ((linePositions src).takeWhile (fun p => decide (p ≤ pos))).length := by
  show 1 ≤ ((0 :: linePosAux src.data 0).takeWhile _).length
  rw [List.takeWhile_cons_of_pos (by simp)]
  simp

lemma getLineNumber_eq_count (src : String) (pos : Nat) :
    getLineNumber src pos =
      ((linePositions src).takeWhile (fun p => decide (p ≤ pos))).length := by
  unfold getLineNumber
  rw [glnGo_spec]
  by_cases h : ((linePositions src).takeWhile
      (fun p => decide (p ≤ pos))).length = (linePositions src).length
  · rw [if_pos h, h]
  · rw [if_neg h]
    have := takeWhile_head_pos src pos
    omega

lemma linePosAux_gt : ∀ (cs : List Char) (i : Nat), ∀ x ∈ linePosAux cs i, i < x
  | [], _ => by simp [linePosAux]
  | c :: cs, i => by
    intro x hx
    unfold linePosAux at hx
    by_cases h : c = '\n'
    · rw [if_pos h] at hx
      rcases List.mem_cons.mp hx with h1 | h1
      · omega
      · have := linePosAux_gt cs (i + 1) x h1; omega
    · rw [if_neg h] at hx
      have := linePosAux_gt cs (i + 1) x hx; omega

lemma linePosAux_pairwise : ∀ (cs : List Char) (i : Nat),
    (linePosAux cs i).Pairwise (· < ·)
  | [], _ => by simp [linePosAux]
  | c :: cs, i => by
    unfold linePosAux
    by_cases h : c = '\n'
    · rw [if_pos h]
      exact List.Pairwise.cons (fun x hx => linePosAux_gt cs (i + 1) x hx)
        (linePosAux_pairwise cs (i + 1))
    · rw [if_neg h]
      exact linePosAux_pairwise cs (i + 1)

lemma linePositions_pairwise (src : String) :
    (linePositions src).Pairwise (· < ·) :=
  List.Pairwise.cons (fun x hx => linePosAux_gt src.data 0 x hx)
    (linePosAux_pairwise src.data 0)

lemma sorted_get_mono {l : List Nat} (hp : l.Pairwise (· < ·))
    {i j : Nat} (hi : i < l.length) (hj : j < l.length) (hij : i ≤ j) :
    l.get ⟨i, hi⟩ ≤ l.get ⟨j, hj⟩ := by
  rcases Nat.lt_or_ge i j with h | h
  · exact Nat.le_of_lt (List.pairwise_iff_getElem.mp hp i j hi hj h)
  · have : i = j := by omega
    subst this
    exact Nat.le_refl _

lemma takeWhile_boundary {α : Type} (p : α → Bool) :
    ∀ (l : List α) (x : α),
      l.get? (l.takeWhile p).length = some x → p x = false
  | [], x => by simp
  | a :: l, x => by
    by_cases hp : p a
    · rw [List.takeWhile_cons_of_pos hp]
      intro h
      exact takeWhile_boundary p l x (by simpa using h)
    · rw [List.takeWhile_cons_of_neg hp]
      intro h
      simp only [List.length_nil, List.get?_cons_zero, Option.some.injEq] at h
      rw [← h]
      exact Bool.not_eq_true _ ▸ (by simpa using hp)

/-- C9: for any source string and any offset inside it, there is a line
start that is the greatest line-start offset less than or equal to the
offset, `get_line_number` returns its 1-based index, and
`get_column_number` returns the offset minus that line start plus 1. -/
theorem c9_line_column (src : String) (pos : Nat) (hpos : pos < src.length) :
    ∃ (i : Nat) (hi : i < (linePositions src).length),
      (linePositions src).get ⟨i, hi⟩ ≤ pos ∧
      (∀ (j : Nat) (hj : j < (linePositions src).length),
        (linePositions src).get ⟨j, hj⟩ ≤ pos →
        (linePositions src).get ⟨j, hj⟩ ≤ (linePositions src).get ⟨i, hi⟩) ∧
      getLineNumber src pos = i + 1 ∧
      getColumnNumber src pos = pos - (linePositions src).get ⟨i, hi⟩ + 1 := by
  have hk1 := takeWhile_head_pos src pos
  have hle : ((linePositions src).takeWhile
      (fun p => decide (p ≤ pos))).length ≤ (linePositions src).length :=
    (List.takeWhile_prefix _).length_le
  set l := linePositions src with hl
  set cnt := (l.takeWhile (fun p => decide (p ≤ pos))).length with hcnt
  have hi : cnt - 1 < l.length := by omega
  refine ⟨cnt - 1, hi, ?_, ?_, ?_, ?_⟩
  · -- the start at index cnt-1 is ≤ pos
    have hlt : cnt - 1 < (l.takeWhile (fun p => decide (p ≤ pos))).length := by
      omega
    have hpeq := (List.takeWhile_prefix
      (fun p => decide (p ≤ pos)) (l := l)).getElem hlt
    have hmem := List.getElem_mem hlt
    have hp := List.mem_takeWhile_imp hmem
    simp only [decide_eq_true_eq] at hp
    rw [hpeq] at hp
    simpa [List.get_eq_getElem] using hp
  · -- greatest such start
    intro j hj hjle
    by_cases hcase : j ≤ cnt - 1
    · exact sorted_get_mono (hl ▸ linePositions_pairwise src) hj hi hcase
    · exfalso
      have hcntlt : cnt < l.length := by omega
      have hbound := takeWhile_boundary (fun p => decide (p ≤ pos)) l
        (l.get ⟨cnt, hcntlt⟩) (by
          rw [List.get?_eq_getElem?, List.getElem?_eq_getElem hcntlt]
          simp [List.get_eq_getElem])
      simp only [decide_eq_false_iff_not, Nat.not_le] at hbound
      have hmono := sorted_get_mono (hl ▸ linePositions_pairwise src)
        hcntlt hj (by omega)
      omega
  · rw [getLineNumber_eq_count, ← hl, ← hcnt]
    omega
  · unfold getColumnNumber
    rw [getLineNumber_eq_count, ← hl, ← hcnt]
    have hgd : l.getD (cnt - 1) 0 = l.get ⟨cnt - 1, hi⟩ := by
      rw [List.getD_eq_getElem?_getD, List.getElem?_eq_getElem hi]
      simp [List.get_eq_getElem]
    rw [hgd]

lemma nodeAt_set {ns : List PNode} {n i : Nat} (X : PNode) (hi : i < ns.length) :
    nodeAt (ns.set n X) i = if i = n then X else nodeAt ns i := by
  by_cases h : i = n
  · subst h
    rw [if_pos rfl]
    unfold nodeAt
    rw [List.getD_eq_getElem?_getD, List.getElem?_set_self (by omega)]
    rfl
  · rw [if_neg h]
    unfold nodeAt
    rw [List.getD_eq_getElem?_getD, List.getElem?_set_ne (fun hc => h hc.symm),
      List.getD_eq_getElem?_getD]

lemma wfArena_congr {ns ns' : List PNode} (hlen : ns'.length = ns.length)
    (hpc : ∀ i, i < ns.length →
      (nodeAt ns' i).parent = (nodeAt ns i).parent ∧
      (nodeAt ns' i).children = (nodeAt ns i).children)
    (h : wfArena ns) : wfArena ns' := by
  obtain ⟨h0, hroot, hall⟩ := h
  refine ⟨by omega, ?_, ?_⟩
  · rw [(hpc 0 h0).1, hroot]
  · intro i hi
    rw [hlen] at hi
    obtain ⟨hpar, hch⟩ := hall i hi
    constructor
    · intro hne
      obtain ⟨j, hj, hp, hm⟩ := hpar hne
      exact ⟨j, hj, by rw [(hpc i hi).1, hp], by
        rw [(hpc j (by omega)).2]; exact hm⟩
    · intro c hc
      rw [(hpc i hi).2] at hc
      obtain ⟨h1, h2, h3⟩ := hch c hc
      exact ⟨by omega, h2, by rw [(hpc c h1).1, h3]⟩

lemma parent_addChildNode {ns : List PNode} {p i : Nat} (v : String)
    (hi : i < ns.length) :
    (nodeAt (addChildNode ns p v) i).parent = (nodeAt ns i).parent := by
  by_cases h : i = p
  · subst h
    rw [nodeAt_addChildNode_self v hi]
  · rw [nodeAt_addChildNode_old v hi h]

lemma wfArena_addChildNode {ns : List PNode} {p : Nat} (v : String)
    (h : wfArena ns) (hp : p < ns.length) : wfArena (addChildNode ns p v) := by
  obtain ⟨h0, hroot, hall⟩ := h
  have hlen := addChildNode_length ns p v
  refine ⟨by omega, ?_, ?_⟩
  · rw [parent_addChildNode v h0, hroot]
  · intro i hi
    rw [hlen] at hi
    by_cases hnew : i = ns.length
    · subst hnew
      constructor
      · intro _
        refine ⟨p, hp, ?_, ?_⟩
        · rw [nodeAt_addChildNode_new]
        · rw [nodeAt_addChildNode_self v hp]
          simp
      · intro c hc
        rw [nodeAt_addChildNode_new] at hc
        simp at hc
    · have hi' : i < ns.length := by omega
      obtain ⟨hpar, hch⟩ := hall i hi'
      constructor
      · intro hne
        obtain ⟨j, hj, hjp, hjm⟩ := hpar hne
        refine ⟨j, hj, by rw [parent_addChildNode v hi', hjp], ?_⟩
        by_cases hjq : j = p
        · subst hjq
          rw [nodeAt_addChildNode_self v hp]
          simp only [List.mem_append]
          exact Or.inl hjm
        · rw [nodeAt_addChildNode_old v (by omega) hjq]
          exact hjm
      · intro c hc
        by_cases hip : i = p
        · subst hip
          rw [nodeAt_addChildNode_self v hp] at hc
          rcases List.mem_append.mp hc with hold | hnew2
          · obtain ⟨h1, h2, h3⟩ := hch c hold
            exact ⟨by omega, h2, by rw [parent_addChildNode v h1, h3]⟩
          · have hc' : c = ns.length := by simpa using hnew2
            subst hc'
            exact ⟨by omega, by omega, by rw [nodeAt_addChildNode_new]⟩
        · rw [nodeAt_addChildNode_old v hi' hip] at hc
          obtain ⟨h1, h2, h3⟩ := hch c hc
          exact ⟨by omega, h2, by rw [parent_addChildNode v h1, h3]⟩

lemma wfArena_expandArena {p : Nat} :
    ∀ (l : List String) (ns : List PNode), wfArena ns → p < ns.length →
      wfArena (expandArena ns p l)
  | [], ns, h, _ => h
  | a :: l, ns, h, hp =>
    wfArena_expandArena l (addChildNode ns p a)
      (wfArena_addChildNode a h hp)
      (by rw [addChildNode_length]; omega)

lemma parent_expandArena {p : Nat} :
    ∀ (l : List String) (ns : List PNode) (i : Nat), i < ns.length →
      (nodeAt (expandArena ns p l) i).parent = (nodeAt ns i).parent
  | [], ns, i, _ => rfl
  | a :: l, ns, i, hi => by
    show (nodeAt (expandArena (addChildNode ns p a) p l) i).parent = _
    rw [parent_expandArena l (addChildNode ns p a) i
        (by rw [addChildNode_length]; omega),
      parent_addChildNode a hi]

lemma walkRoot_fuel_succ (ns : List PNode) :
    ∀ (fuel i r : Nat), walkRoot ns fuel i = some r →
      walkRoot ns (fuel + 1) i = some r
  | 0, i, r, h => by cases h
  | fuel + 1, i, r, h => by
    unfold walkRoot at h ⊢
    cases hp : (nodeAt ns i).parent with
    | none => rw [hp] at h; exact h
    | some j =>
      rw [hp] at h
      exact walkRoot_fuel_succ ns fuel j r h

lemma walkRoot_fuel_le (ns : List PNode) {f f' : Nat} (hf : f ≤ f')
    {i r : Nat} (h : walkRoot ns f i = some r) : walkRoot ns f' i = some r := by
  induction f' with
  | zero =>
    have : f = 0 := by omega
    subst this
    exact h
  | succ n ih =>
    by_cases hc : f = n + 1
    · subst hc; exact h
    · exact walkRoot_fuel_succ ns n i r (ih (by omega))

lemma walkRoot_reaches_root {ns : List PNode} (h : wfArena ns) :
    ∀ i, i < ns.length → walkRoot ns (i + 1) i = some 0 := by
  intro i
  induction i using Nat.strong_induction_on with
  | _ i ih =>
    intro hi
    obtain ⟨h0, hroot, hall⟩ := h
    by_cases hz : i = 0
    · subst hz
      unfold walkRoot
      rw [hroot]
    · obtain ⟨j, hj, hp, _⟩ := (hall i hi).1 hz
      show walkRoot ns (i + 1) i = some 0
      unfold walkRoot
      rw [hp]
      exact walkRoot_fuel_le ns (by omega) (ih j hj (by omega))

lemma step_preserves_wf (tb : PTable) (stream : List Token) (s s' : PState)
    (hwf : stateWf s) (hstep : step tb stream s = .cont s') :
    stateWf s' ∧ s.nodes.length ≤ s'.nodes.length ∧
    (∀ i, i < s.nodes.length →
      (nodeAt s'.nodes i).parent = (nodeAt s.nodes i).parent) := by
  obtain ⟨nodes, stack, nstk, idx, pseq⟩ := s
  obtain ⟨hwfa, hns⟩ := hwf
  simp only at hwfa hns ⊢
  rcases stack with _ | ⟨top, restS⟩
  · simp [step] at hstep
  rcases hg : stream.get? idx with _ | ⟨⟨tokType, tokVal, pos⟩⟩ <;>
    simp only [step, hg] at hstep
  · cases hstep
  rcases hc : getTerminalSymbol stream idx tokType tokVal with ⟨tOpt, idx2⟩
  simp only [hc] at hstep
  rcases tOpt with _ | terminal
  · cases hstep
    exact ⟨⟨hwfa, hns⟩, Nat.le_refl _, fun i _ => rfl⟩
  by_cases h1 : top = "$" ∧ terminal = "$"
  · simp only [if_pos h1] at hstep; cases hstep
  simp only [if_neg h1] at hstep
  by_cases h2 : top = terminal
  · simp only [if_pos h2] at hstep
    rcases nstk with _ | ⟨n, restN⟩
    · cases hstep
    · cases hstep
      have hn : n < nodes.length := hns n (by simp)
      refine ⟨⟨?_, ?_⟩, by simp, ?_⟩
      · refine wfArena_congr (by simp) ?_ hwfa
        intro i hi
        rw [show nodes.getD n defaultPNode = nodeAt nodes n from rfl,
          nodeAt_set _ hi]
        by_cases hin : i = n
        · subst hin; rw [if_pos rfl]; exact ⟨rfl, rfl⟩
        · rw [if_neg hin]; exact ⟨rfl, rfl⟩
      · intro m hm
        simp only [List.length_set]
        exact hns m (by simp [hm])
      · intro i hi
        rw [show nodes.getD n defaultPNode = nodeAt nodes n from rfl,
          nodeAt_set _ hi]
        by_cases hin : i = n
        · subst hin; rw [if_pos rfl]
        · rw [if_neg hin]
  simp only [if_neg h2] at hstep
  by_cases h3 : grammarKeys.contains top = false
  · simp only [if_pos h3] at hstep; cases hstep
  simp only [if_neg h3] at hstep
  rcases he : getParseTableEntry tb top terminal with e | production <;>
    simp only [he] at hstep
  · cases hstep
  by_cases h4 : production = ""
  · simp only [if_pos h4] at hstep; cases hstep
  simp only [if_neg h4] at hstep
  rcases nstk with _ | ⟨n, restN⟩
  · cases hstep
  have hn : n < nodes.length := hns n (by simp)
  by_cases h5 : production = "ε"
  · simp only [if_pos h5] at hstep
    cases hstep
    refine ⟨⟨wfArena_addChildNode "ε" hwfa hn, ?_⟩,
      by rw [addChildNode_length]; omega, ?_⟩
    · intro m hm
      rw [addChildNode_length]
      have := hns m (by simp [hm])
      omega
    · intro i hi
      exact parent_addChildNode "ε" hi
  · simp only [if_neg h5] at hstep
    rw [pushSyms_eq] at hstep
    cases hstep
    have hexp := expandArena_length (p := n) (splitSyms production).reverse nodes
    rw [List.length_reverse] at hexp
    refine ⟨⟨wfArena_expandArena _ nodes hwfa hn, ?_⟩, ?_, ?_⟩
    · intro m hm
      dsimp only at hm ⊢
      rw [hexp]
      rcases List.mem_append.mp hm with hnew | hold
      · have hb := List.mem_range'_1.mp (List.mem_reverse.mp hnew)
        rw [List.length_reverse] at hb
        omega
      · have := hns m (by simp [hold])
        omega
    · dsimp only
      rw [hexp]
      omega
    · intro i hi
      exact parent_expandArena _ nodes i hi

lemma memFirstOfStringSet_mono {S T : SetFam} (h : ∀ k, S k ⊆ T k) :
    ∀ (syms : List String) (x : String),
      memFirstOfStringSet S syms x → memFirstOfStringSet T syms x
  | [], x, hx => hx
  | sym :: rest, x, hx => by
    unfold memFirstOfStringSet at hx ⊢
    by_cases ht : isTerminalSymbol sym
    · rw [if_pos ht] at hx ⊢; exact hx
    · rw [if_neg ht] at hx ⊢
      rcases hx with ⟨h1, h2⟩ | ⟨h1, h2⟩
      · exact Or.inl ⟨h sym h1, h2⟩
      · exact Or.inr ⟨h sym h1, memFirstOfStringSet_mono h rest x h2⟩

lemma mem_setAdd {l : List String} {x y : String} :
    x ∈ setAdd l y ↔ x ∈ l ∨ x = y := by
  unfold setAdd
  by_cases h : y ∈ l
  · rw [if_pos h]
    constructor
    · exact Or.inl
    · rintro (hx | hx)
      · exact hx
      · rw [hx]; exact h
  · rw [if_neg h]
    simp

lemma mem_setAddMany {x : String} :
    ∀ {xs l : List String}, x ∈ setAddMany l xs ↔ x ∈ l ∨ x ∈ xs := by
  intro xs
  induction xs with
  | nil => simp [setAddMany]
  | cons y ys ih =>
    intro l
    show x ∈ setAddMany (setAdd l y) ys ↔ _
    rw [ih, mem_setAdd]
    simp only [List.mem_cons]
    tauto

/-- The list-level FIRST-of-string computation only produces elements that
the spec's rules justify over any family above the map. -/

lemma firstOfStringGo_sub {fs : SMap} {S : SetFam}
    (h : ∀ k x, x ∈ getSet fs k → x ∈ S k) :
    ∀ (syms acc : List String),
      (∀ x, x ∈ (firstOfStringGo fs syms acc).1 →
        x ∈ acc ∨ memFirstOfStringSet S syms x) ∧
      ((firstOfStringGo fs syms acc).2 = true →
        memFirstOfStringSet S syms "ε")
  | [], acc => by
    constructor
    · intro x hx; exact Or.inl hx
    · intro _; rfl
  | sym :: rest, acc => by
    unfold firstOfStringGo
    by_cases ht : isTerminalSymbol sym
    · rw [if_pos ht]
      constructor
      · intro x hx
        rcases mem_setAdd.mp hx with h1 | h1
        · exact Or.inl h1
        · refine Or.inr ?_
          unfold memFirstOfStringSet
          rw [if_pos ht]
          exact h1
      · intro hfl; cases hfl
    · rw [if_neg ht]
      have hacc1 : ∀ x, x ∈ setAddMany acc
          ((getSet fs sym).filter (fun s => s ≠ "ε")) →
          x ∈ acc ∨ memFirstOfStringSet S (sym :: rest) x := by
        intro x hx
        rcases mem_setAddMany.mp hx with h1 | h1
        · exact Or.inl h1
        · have hm := List.mem_filter.mp h1
          refine Or.inr ?_
          unfold memFirstOfStringSet
          rw [if_neg ht]
          exact Or.inl ⟨h sym x hm.1, by simpa using hm.2⟩
      by_cases hev : (getSet fs sym).contains "ε"
      · rw [if_pos hev]
        have heps : "ε" ∈ S sym := h sym "ε" (by simpa using hev)
        obtain ⟨ih1, ih2⟩ := firstOfStringGo_sub h rest
          (setAddMany acc ((getSet fs sym).filter (fun s => s ≠ "ε")))
        constructor
        · intro x hx
          rcases ih1 x hx with h1 | h1
          · exact hacc1 x h1
          · refine Or.inr ?_
            unfold memFirstOfStringSet
            rw [if_neg ht]
            exact Or.inr ⟨heps, h1⟩
        · intro hfl
          unfold memFirstOfStringSet
          rw [if_neg ht]
          exact Or.inr ⟨heps, ih2 hfl⟩
      · rw [if_neg hev]
        exact ⟨hacc1, fun hfl => by cases hfl⟩

lemma computeFirstOfString_sub {fs : SMap} {S : SetFam}
    (h : ∀ k x, x ∈ getSet fs k → x ∈ S k) (syms : List String) (x : String)
    (hx : x ∈ computeFirstOfString fs syms) :
    memFirstOfStringSet S syms x := by
  unfold computeFirstOfString at hx
  rcases syms with _ | ⟨sym, rest⟩
  · have : x = "ε" := by simpa using hx
    exact this
  · obtain ⟨h1, h2⟩ := firstOfStringGo_sub h (sym :: rest) []
    by_cases hfl : (firstOfStringGo fs (sym :: rest) []).2 = true
    · rw [if_pos hfl] at hx
      rcases mem_setAdd.mp hx with hm | hm
      · rcases h1 x hm with hc | hc
        · cases hc
        · exact hc
      · rw [hm]; exact h2 hfl
    · rw [if_neg hfl] at hx
      rcases h1 x hx with hc | hc
      · cases hc
      · exact hc

lemma getSet_setSet (m : SMap) (k : String) (v : List String) (k' : String) :
    getSet (setSet m k v) k' =
      if k' = k then ((m.lookup k).map (fun _ => v)).getD []
      else getSet m k' := by
  unfold getSet setSet
  rw [lookup_map_update (fun _ => v) k m k']
  by_cases h : k' = k
  · rw [if_pos h, if_pos h]
  · rw [if_neg h, if_neg h]

lemma getSet_addOne_sub {m : SMap} {nt y k x : String}
    (hx : x ∈ getSet (addOne m nt y).1 k) :
    x ∈ getSet m k ∨ (k = nt ∧ x = y) := by
  unfold addOne at hx
  by_cases h : y ∈ getSet m nt
  · rw [if_pos h] at hx
    exact Or.inl hx
  · rw [if_neg h] at hx
    simp only at hx
    rw [getSet_setSet] at hx
    by_cases hk : k = nt
    · rw [if_pos hk] at hx
      cases hl : m.lookup nt with
      | none => rw [hl] at hx; cases hx
      | some w =>
        rw [hl] at hx
        simp only [Option.map_some', Option.getD_some] at hx
        rcases List.mem_append.mp hx with h1 | h1
        · exact Or.inl (by rw [hk]; exact h1)
        · exact Or.inr ⟨hk, by simpa using h1⟩
    · rw [if_neg hk] at hx
      exact Or.inl hx

lemma getSet_addMany_sub {m : SMap} {nt k x : String} :
    ∀ {xs : List String}, x ∈ getSet (addMany m nt xs).1 k →
      x ∈ getSet m k ∨ (k = nt ∧ x ∈ xs) := by
  suffices h : ∀ (xs : List String) (acc : SMap × Bool),
      x ∈ getSet (xs.foldl (fun acc x =>
        let r := addOne acc.1 nt x
        (r.1, acc.2 || r.2)) acc).1 k →
      x ∈ getSet acc.1 k ∨ (k = nt ∧ x ∈ xs) by
    intro xs hx
    exact h xs (m, false) hx
  intro xs
  induction xs with
  | nil => intro acc hx; exact Or.inl hx
  | cons y ys ih =>
    intro acc hx
    rcases ih _ hx with h1 | ⟨h1, h2⟩
    · rcases getSet_addOne_sub h1 with h2 | ⟨h2, h3⟩
      · exact Or.inl h2
      · exact Or.inr ⟨h2, by rw [h3]; simp⟩
    · exact Or.inr ⟨h1, by simp [h2]⟩

lemma mapBelow_addOne {fs : SMap} {S : SetFam} {nt y : String}
    (h : mapBelow fs S) (hy : y ∈ S nt) : mapBelow (addOne fs nt y).1 S := by
  intro k x hx
  rcases getSet_addOne_sub hx with h1 | ⟨h1, h2⟩
  · exact h k x h1
  · rw [h1, h2]; exact hy

lemma mapBelow_addMany {fs : SMap} {S : SetFam} {nt : String}
    {xs : List String} (h : mapBelow fs S) (hxs : ∀ x ∈ xs, x ∈ S nt) :
    mapBelow (addMany fs nt xs).1 S := by
  intro k x hx
  rcases getSet_addMany_sub hx with h1 | ⟨h1, h2⟩
  · exact h k x h1
  · rw [h1]; exact hxs x h2

lemma firstScan_sub {S : SetFam} {nt : String} :
    ∀ (syms : List String) (fs : SMap) (ch : Bool), mapBelow fs S →
      (∀ x, memFirstOfStringSet S syms x → x ∈ S nt) →
      mapBelow (firstScan nt syms fs ch).1 S ∧
      ((firstScan nt syms fs ch).2.2 = true → "ε" ∈ S nt)
  | [], fs, ch, hfs, hjust => ⟨hfs, fun _ => hjust "ε" rfl⟩
  | sym :: rest, fs, ch, hfs, hjust => by
    unfold firstScan
    by_cases ht : isTerminalSymbol sym
    · rw [if_pos ht]
      refine ⟨?_, fun hfl => by cases hfl⟩
      refine mapBelow_addOne hfs (hjust sym ?_)
      unfold memFirstOfStringSet
      rw [if_pos ht]
    · rw [if_neg ht]
      have hr1 : mapBelow (addMany fs nt
          ((getSet fs sym).filter (fun s => s ≠ "ε"))).1 S := by
        refine mapBelow_addMany hfs ?_
        intro x hx
        have hm := List.mem_filter.mp hx
        refine hjust x ?_
        unfold memFirstOfStringSet
        rw [if_neg ht]
        exact Or.inl ⟨hfs sym x hm.1, by simpa using hm.2⟩
      by_cases hev : (getSet (addMany fs nt
          ((getSet fs sym).filter (fun s => s ≠ "ε"))).1 sym).contains "ε"
      · rw [if_pos hev]
        have heps : "ε" ∈ S sym := hr1 sym "ε" (by simpa using hev)
        refine firstScan_sub rest _ _ hr1 ?_
        intro x hx
        refine hjust x ?_
        unfold memFirstOfStringSet
        rw [if_neg ht]
        exact Or.inr ⟨heps, hx⟩
      · rw [if_neg hev]
        exact ⟨hr1, fun hfl => by cases hfl⟩

lemma firstProd_sub {S : SetFam} {nt prod : String} {fs : SMap} {ch : Bool}
    (hfs : mapBelow fs S)
    (hjust : ∀ x, memFirstOfStringSet S (splitSyms prod) x → x ∈ S nt) :
    mapBelow (firstProd nt prod fs ch).1 S := by
  unfold firstProd
  rcases hsp : splitSyms prod with _ | ⟨s0, rest⟩
  · rw [hsp] at hjust
    exact mapBelow_addOne hfs (hjust "ε" rfl)
  · rw [hsp] at hjust
    dsimp only
    by_cases h0 : s0 = "ε"
    · rw [if_pos h0]
      refine mapBelow_addOne hfs (hjust "ε" ?_)
      unfold memFirstOfStringSet
      rw [if_pos (by rw [h0]; rfl)]
      exact h0.symm
    · rw [if_neg h0]
      obtain ⟨h1, h2⟩ := @firstScan_sub S nt (s0 :: rest) fs ch hfs hjust
      by_cases hfl : (firstScan nt (s0 :: rest) fs ch).2.2 = true
      · rw [if_pos hfl]
        exact mapBelow_addOne h1 (h2 hfl)
      · rw [if_neg hfl]
        exact h1

lemma firstProds_sub {S : SetFam} {nt : String} :
    ∀ (ps : List String) (acc : SMap × Bool), mapBelow acc.1 S →
      (∀ p ∈ ps, ∀ x, memFirstOfStringSet S (splitSyms p) x → x ∈ S nt) →
      mapBelow (firstProds nt ps acc).1 S
  | [], acc, hfs, _ => hfs
  | p :: ps, acc, hfs, hjust =>
    firstProds_sub ps _
      (firstProd_sub hfs (hjust p (by simp)))
      (fun q hq => hjust q (by simp [hq]))

lemma firstPass_sub {S : SetFam} (hS : FirstClosed S) :
    ∀ (g : List (String × List String)) (acc : SMap × Bool),
      (∀ e ∈ g, e ∈ grammarList) → mapBelow acc.1 S →
      mapBelow (firstPass g acc).1 S
  | [], acc, _, hfs => hfs
  | (nt, prods) :: g, acc, hg, hfs =>
    firstPass_sub hS g _ (fun e he => hg e (by simp [he]))
      (firstProds_sub prods acc hfs
        (fun p hp => hS nt prods (hg (nt, prods) (by simp)) p hp))

lemma firstIter_sub {S : SetFam} (hS : FirstClosed S) :
    ∀ (fuel : Nat) (fs : SMap), mapBelow fs S →
      mapBelow (firstIter grammarList fuel fs) S
  | 0, fs, hfs => hfs
  | fuel + 1, fs, hfs => by
    unfold firstIter
    have hpass := firstPass_sub hS grammarList (fs, false) (fun e he => he) hfs
    by_cases h : (firstPass grammarList (fs, false)).2 = true
    · rw [if_pos h]
      exact firstIter_sub hS fuel _ hpass
    · rw [if_neg h]
      exact hpass

lemma getSet_emptySMap (k : String) : getSet emptySMap k = [] := by
  unfold getSet emptySMap
  rw [lookup_map_pair (fun _ => []) nonTerminalsList k]
  by_cases h : k ∈ nonTerminalsList
  · rw [if_pos h]; rfl
  · rw [if_neg h]; rfl

lemma computeFirstSets_sub {S : SetFam} (hS : FirstClosed S) :
    mapBelow (computeFirstSets grammarList) S :=
  firstIter_sub hS 50 emptySMap (fun k x hx => by
    rw [getSet_emptySMap] at hx; cases hx)

/-- Every element of the snapshot FIRST sets lies in the least fixed point of
the spec's FIRST rules. -/

lemma firstSets0_below_specFIRST : mapBelow firstSets0 specFIRST := by
  intro k x hx
  intro S hS
  exact computeFirstSets_sub hS k x (by rw [firstSets0_spec]; exact hx)

lemma suffixClosed_tail {S : SetFam} {nt sym : String} {rest : List String}
    (h : SuffixClosed S nt (sym :: rest)) : SuffixClosed S nt rest := by
  intro i B hB hBnt
  have h2 := h (i + 1) B (by simpa using hB) hBnt
  simpa using h2

lemma suffixClosed_head {S : SetFam} {nt sym : String} {rest : List String}
    (h : SuffixClosed S nt (sym :: rest)) (hsym : sym ∈ nonTerminalsList) :
    (∀ x, memFirstOfStringSet specFIRST rest x → x ≠ "ε" → x ∈ S sym) ∧
    (memFirstOfStringSet specFIRST rest "ε" → ∀ y, y ∈ S nt → y ∈ S sym) := by
  have h2 := h 0 sym rfl hsym
  simpa using h2

lemma followScan_sub {S : SetFam} {nt : String} {firsts : SMap}
    (hf : mapBelow firsts specFIRST) :
    ∀ (syms : List String) (m : SMap) (ch : Bool), mapBelow m S →
      SuffixClosed S nt syms →
      mapBelow (followScan firsts nt syms m ch).1 S
  | [], m, ch, hm, _ => hm
  | sym :: rest, m, ch, hm, hsc => by
    unfold followScan
    by_cases hNT : nonTerminalsList.contains sym
    · rw [if_pos hNT]
      have hsym : sym ∈ nonTerminalsList := by simpa using hNT
      obtain ⟨hhead1, hhead2⟩ := suffixClosed_head hsc hsym
      have hr1 : mapBelow (addMany m sym
          ((computeFirstOfString firsts rest).filter (fun s => s ≠ "ε"))).1 S := by
        refine mapBelow_addMany hm ?_
        intro x hx
        have hmf := List.mem_filter.mp hx
        exact hhead1 x (computeFirstOfString_sub hf rest x hmf.1)
          (by simpa using hmf.2)
      by_cases hev : (computeFirstOfString firsts rest).contains "ε"
      · rw [if_pos hev]
        have heps : memFirstOfStringSet specFIRST rest "ε" :=
          computeFirstOfString_sub hf rest "ε" (by simpa using hev)
        refine followScan_sub hf rest _ _ ?_ (suffixClosed_tail hsc)
        refine mapBelow_addMany hr1 ?_
        intro y hy
        exact hhead2 heps y (hr1 nt y hy)
      · rw [if_neg hev]
        exact followScan_sub hf rest _ _ hr1 (suffixClosed_tail hsc)
    · rw [if_neg hNT]
      exact followScan_sub hf rest _ _ hm (suffixClosed_tail hsc)

lemma followProds_sub {S : SetFam} {nt : String} {firsts : SMap}
    (hf : mapBelow firsts specFIRST) :
    ∀ (ps : List String) (acc : SMap × Bool), mapBelow acc.1 S →
      (∀ p ∈ ps, SuffixClosed S nt (splitSyms p)) →
      mapBelow (followProds firsts nt ps acc).1 S
  | [], acc, hm, _ => hm
  | p :: ps, acc, hm, hsc =>
    followProds_sub hf ps _
      (followScan_sub hf (splitSyms p) acc.1 acc.2 hm (hsc p (by simp)))
      (fun q hq => hsc q (by simp [hq]))

lemma followPass_sub {S : SetFam} {firsts : SMap}
    (hf : mapBelow firsts specFIRST) (hS : FollowClosed S) :
    ∀ (g : List (String × List String)) (acc : SMap × Bool),
      (∀ e ∈ g, e ∈ grammarList) → mapBelow acc.1 S →
      mapBelow (followPass firsts g acc).1 S
  | [], acc, _, hm => hm
  | (nt, prods) :: g, acc, hg, hm =>
    followPass_sub hf hS g _ (fun e he => hg e (by simp [he]))
      (followProds_sub hf prods acc hm
        (fun p hp => hS.2 nt prods (hg (nt, prods) (by simp)) p hp))

lemma followInit_sub {S : SetFam} (hS : FollowClosed S) :
    mapBelow followInit S := by
  intro k x hx
  unfold followInit at hx
  rw [getSet_setSet] at hx
  by_cases hk : k = "Start"
  · rw [if_pos hk] at hx
    rw [show emptySMap.lookup "Start" = some [] from rfl] at hx
    simp only [Option.map_some', Option.getD_some] at hx
    have : x = "$" := by simpa using hx
    rw [this, hk]
    exact hS.1
  · rw [if_neg hk, getSet_emptySMap] at hx
    cases hx

lemma followIter_sub {S : SetFam} {firsts : SMap}
    (hf : mapBelow firsts specFIRST) (hS : FollowClosed S) :
    ∀ (fuel : Nat) (m : SMap), mapBelow m S →
      mapBelow (followIter firsts grammarList fuel m) S
  | 0, m, hm => hm
  | fuel + 1, m, hm => by
    unfold followIter
    have hpass := followPass_sub hf hS grammarList (m, false) (fun e he => he) hm
    by_cases h : (followPass firsts grammarList (m, false)).2 = true
    · rw [if_pos h]
      exact followIter_sub hf hS fuel _ hpass
    · rw [if_neg h]
      exact hpass

/-- Every element of the snapshot FOLLOW sets lies in the least fixed point
of the spec's FOLLOW rules. -/

lemma followSets0_below_specFOLLOW : mapBelow followSets0 specFOLLOW := by
  intro k x hx
  intro S hS
  refine followIter_sub firstSets0_below_specFIRST hS 50 followInit
    (followInit_sub hS) k x ?_
  rw [show followIter firstSets0 grammarList 50 followInit =
    computeFollowSets grammarList firstSets0 from rfl, followSets0_spec]
  exact hx

lemma specFIRST_le {S : SetFam} (hS : FirstClosed S) (k : String) :
    specFIRST k ⊆ S k := fun _ hx => hx S hS

lemma specFIRST_closed : FirstClosed specFIRST := by
  intro nt prods hmem prod hp x hx
  intro S hS
  exact hS nt prods hmem prod hp x
    (memFirstOfStringSet_mono (specFIRST_le hS) (splitSyms prod) x hx)

lemma specFOLLOW_le {S : SetFam} (hS : FollowClosed S) (k : String) :
    specFOLLOW k ⊆ S k := fun _ hx => hx S hS

lemma specFOLLOW_closed : FollowClosed specFOLLOW := by
  constructor
  · intro S hS
    exact hS.1
  · intro nt prods hmem prod hp i B hB hBnt
    constructor
    · intro x hx hne
      intro S hS
      exact (hS.2 nt prods hmem prod hp i B hB hBnt).1 x hx hne
    · intro heps y hy
      intro S hS
      exact (hS.2 nt prods hmem prod hp i B hB hBnt).2 heps y (hy S hS)

/-- The decidable core of the table invariant, evaluated over the snapshot
tables: every non-empty cell is justified by the computed FIRST of its
production (excluding ε) or is the ε-marker justified by computed FOLLOW. -/

lemma tableInv_core :
    ∀ A ∈ nonTerminalsList, ∀ t ∈ terminalsList,
      ((cellGet table0 A t).getD "" = "" ∨
        ((cellGet table0 A t).getD "" ≠ "ε" ∧
          t ∈ computeFirstOfString firstSets0
            (splitSyms ((cellGet table0 A t).getD "")) ∧ t ≠ "ε") ∨
        ((cellGet table0 A t).getD "" = "ε" ∧ t ∈ getSet followSets0 A)) := by
  decide

/-- C4: for every non-terminal A and terminal t, a non-empty cell
table[A][t] = p satisfies: t lies in FIRST(p) excluding ε, or p is the
ε-marker and t lies in FOLLOW(A) — where FIRST and FOLLOW are the least
fixed points of the spec's rules (`specFIRST`, `specFOLLOW`, with
$ ∈ FOLLOW(Start)), least in the precise sense recorded by the remaining
conjuncts: they are closed under the rules and contained in every closed
family. -/
theorem c4_table_invariant :
    (∀ A, A ∈ nonTerminalsList → ∀ t, t ∈ terminalsList →
      ∀ p, cellGet table0 A t = some p → p ≠ "" →
        ((memFirstOfStringSet specFIRST (splitSyms p) t ∧ t ≠ "ε") ∨
          (p = "ε" ∧ t ∈ specFOLLOW A))) ∧
    FirstClosed specFIRST ∧
    (∀ S, FirstClosed S → ∀ k, specFIRST k ⊆ S k) ∧
    FollowClosed specFOLLOW ∧
    (∀ S, FollowClosed S → ∀ k, specFOLLOW k ⊆ S k) := by
  refine ⟨?_, specFIRST_closed, fun S hS => specFIRST_le hS,
    specFOLLOW_closed, fun S hS => specFOLLOW_le hS⟩
  intro A hA t ht p hp hne
  have hcore := tableInv_core A hA t ht
  rw [hp] at hcore
  simp only [Option.getD_some] at hcore
  rcases hcore with h | ⟨hpe, hmem, htne⟩ | ⟨hpe, hmem⟩
  · exact absurd h hne
  · exact Or.inl ⟨computeFirstOfString_sub firstSets0_below_specFIRST
      (splitSyms p) t hmem, htne⟩
  · exact Or.inr ⟨hpe, followSets0_below_specFOLLOW A t hmem⟩

/-! ## Claim C1 -/

/-- C1: the claim states that parsing the token stream of the canonical
program succeeds without raising, yields a production trace starting with
`Start -> S N M`, and that the declared type of `s` is `int`.  The code
instead raises: when the cursor reaches the `<` of the library include, the
classifier consumes the three library tokens and returns the pseudo-terminal
`<LibName>`, which is not a column of the parse table, so
`get_parse_table_entry` raises `ValueError("Unknown terminal: <LibName>")`
and `parse` never returns a tree. -/
theorem c1_canonical_program_parse_raises :
    parse table0 tokensCanonical 1000 =
      some (.error (ParseErr.errUnknownTerminal "<LibName>")) := by rfl

/-! ## Claim C2 -/

/-- C2: the claim states that on `<` followed by `iostream` (or an
identifier) followed by `>`, the classifier returns a skip-signal and the
cursor advances by exactly 3.  The code instead (a) returns the terminal
`<LibName>` (not the skip-signal `none`) and advances the cursor by only 2,
leaving the parser to look `<LibName>` up in the table, and (b) at cursor 0
the `prev_idx >= 0` guard disables the rule entirely, so the classifier
returns the terminal `<` and advances by 0.  Both behaviors are shown on the
canonical include prefix `#include < iostream >`. -/
theorem c2_classifier_library_brackets :
    getTerminalSymbol tokensCanonical 1 "symbol" "<" = (some "<LibName>", 3) ∧
    getTerminalSymbol
      [("symbol", "<", 0), ("reservedword", "iostream", 2),
       ("symbol", ">", 11), ("$", "$", 13)] 0 "symbol" "<" =
      (some "<", 0) := by
  exact ⟨by rfl, by rfl⟩

/-! ## Claim C8 -/

/-- C8 counterexample: on the successfully parsed program whose main body
declares `int x; float x;`, the query for `x` returns `float`, the type of
the textually *last* declaration, not of the first declaration (`int`) as
the claim states. -/
theorem c8_counterexample :
    parseSucceeds tokensDouble = true ∧
    findIdentifierDefinition treeDouble "x" = "float" ∧
    ("float" : String) ≠ "int" := by
  exact ⟨by rfl, by rfl, by decide⟩

/-- C8 as amended: `find_identifier_definition` performs its depth-first
search over the children lists as stored by `parse`, which hold the
production symbols in reverse production order; it therefore returns the
reserved-word type of the declaration whose `L` node the search reaches
first, which for a twice-declared identifier is the textually last
declaration (`float` for `x` in `int x; float x;`); identifiers inside a
comma-separated list resolve through the `Z` chain to their declaration's
type; and the literal `"Not found"` is returned when no declaration
exists. -/
theorem c8_last_declaration_lookup :
    parseSucceeds tokensDouble = true ∧
    findIdentifierDefinition treeDouble "x" = "float" ∧
    parseSucceeds tokensComma = true ∧
    findIdentifierDefinition treeComma "s" = "int" ∧
    findIdentifierDefinition treeComma "t" = "int" ∧
    findIdentifierDefinition treeComma "zzz" = "Not found" ∧
    findIdentifierDefinition treeDouble "zzz" = "Not found" := by
  exact ⟨by rfl, by rfl, by rfl, by rfl, by rfl, by rfl, by rfl⟩

/-! ## Claim C6 (counterexample part) -/

/-- C6 counterexample: the claim asserts equal stack and node-stack depth
after initialization, but `parse` initializes the symbol stack to
`['$', 'Start']` (depth 2) and the node stack to the root alone (depth 1). -/
theorem c6_counterexample :
    initPState.stack.length = 2 ∧ initPState.nodeStack.length = 1 ∧
    initPState.stack.length ≠ initPState.nodeStack.length := by
  exact ⟨by rfl, by rfl, by decide⟩

/-! ## Claim C7 (counterexample part) -/

/-- C7 counterexample: on a stream whose first token classifies to the
terminal `void` — a symbol outside the table's terminal columns — the top of
stack is the non-terminal `Start` and there is no table entry for the
classified terminal, yet the engine raises the bare
`ValueError("Unknown terminal: void")`, which carries no expectation set,
rather than an unexpected-token error with the expectation set
`{#include, int, using}`. -/
theorem c7_counterexample :
    parse table0 tokensVoid 300 =
      some (.error (ParseErr.errUnknownTerminal "void")) ∧
    getTerminalSymbol tokensVoid 0 "reservedword" "void" = (some "void", 0) ∧
    grammarKeys.contains "Start" = true ∧
    cellGet table0 "Start" "void" = none := by
  exact ⟨by rfl, by rfl, by rfl, by rfl⟩

/-! ## Claim C5 -/

/-- C5 counterexample: expanding `Start` by `S N M` (the first step on the
empty-main stream) leaves the root's children holding the values
`M, N, S` — the reverse of the production order `S N M` that the claim
asserts. -/
theorem c5_counterexample :
    step table0 tokensSmall initPState = .cont stepSmall1 ∧
    getParseTableEntry table0 "Start" "int" = .ok "S N M" ∧
    (nodeAt stepSmall1.nodes 0).children.map
      (fun j => (nodeAt stepSmall1.nodes j).value) = ["M", "N", "S"] ∧
    (["M", "N", "S"] : List String) ≠ ["S", "N", "M"] := by
  exact ⟨by rfl, by rfl, by rfl, by decide⟩

theorem c5_expansion_alignment_witness :
    stepSmall1.stack = splitSyms "S N M" ++ ["$"] ∧
    stepSmall1.nodeStack =
      (List.range' initPState.nodes.length (splitSyms "S N M").length).reverse
        ++ [] ∧
    (nodeAt stepSmall1.nodes 0).children = (nodeAt initPState.nodes 0).children
      ++ List.range' initPState.nodes.length (splitSyms "S N M").length ∧
    (List.range' initPState.nodes.length (splitSyms "S N M").length).map
      (fun j => (nodeAt stepSmall1.nodes j).value) =
        (splitSyms "S N M").reverse ∧
    stepSmall1.nodeStack.map (fun j => (nodeAt stepSmall1.nodes j).value) =
      splitSyms "S N M" ++
        ([] : List Nat).map (fun j => (nodeAt stepSmall1.nodes j).value) :=
  c5_expansion_alignment table0 tokensSmall initPState stepSmall1
    "Start" ["$"] 0 [] "reservedword" "int" 0 "int" 0 "S N M"
    rfl rfl (by decide) rfl rfl (by decide) (by decide) rfl rfl
    (by decide) (by decide) rfl

/-! ## Claim C6 -/

/-- C6 as amended: the engine's depth invariant is an offset of one, not
equality — after initialization the symbol stack (`$` plus `Start`) is one
deeper than the node stack (the root alone), and every continuing engine
step preserves that offset: match steps pop both stacks together, and
expansion steps pop both and push equally many symbols and nodes. -/
theorem c6_depth_invariant :
    initPState.stack.length = initPState.nodeStack.length + 1 ∧
    ∀ (tb : PTable) (stream : List Token) (s s' : PState),
      s.stack.length = s.nodeStack.length + 1 →
      step tb stream s = .cont s' →
      s'.stack.length = s'.nodeStack.length + 1 := by
  exact ⟨rfl, fun tb stream s s' hinv hstep =>
    step_preserves_depth tb stream s s' hinv hstep⟩

theorem c6_depth_invariant_witness :
    stepSmall1.stack.length = stepSmall1.nodeStack.length + 1 :=
  c6_depth_invariant.2 table0 tokensSmall initPState stepSmall1 rfl rfl

/-! ## Claim C7 -/

/-- C7 as amended: when the top of stack is a non-terminal known to the
grammar and the table cell for the classified terminal is present but
empty, the engine raises an unexpected-token error whose expectation list
is exactly the sorted set of terminals for which that non-terminal has a
non-empty table entry; the first raised error terminates the parse loop
with no recovery; but the claim's example `cout "sum="<<s;` instead fails
on the terminal top `<<` (a mismatch, not a no-entry cell) with a
single-expectation error, and terminals outside the table's columns raise
a bare unknown-terminal error carrying no expectation set
(`c7_counterexample`). -/
theorem c7_error_reporting :
    (∀ (tb : PTable) (stream : List Token) (s : PState) top restS
        tokType tokVal pos terminal idx',
      s.stack = top :: restS →
      stream.get? s.idx = some (tokType, tokVal, pos) →
      getTerminalSymbol stream s.idx tokType tokVal = (some terminal, idx') →
      ¬(top = "$" ∧ terminal = "$") → top ≠ terminal →
      grammarKeys.contains top = true →
      getParseTableEntry tb top terminal = .ok "" →
      step tb stream s = .err (.errList tokVal (parsingContext tb top) pos)) ∧
    (∀ (tb : PTable) (nt t : String), t ∈ parsingContext tb nt ↔
      t ∈ terminalsList ∧ ((cellGet tb nt t).getD "") ≠ "") ∧
    (∀ (tb : PTable) (stream : List Token) (fuel : Nat) (s : PState) e,
      step tb stream s = .err e →
      parseLoop tb stream (fuel + 1) s = some (.error e)) ∧
    parse table0 tokensCout 300 =
      some (.error (.errSingle "\"sum=\"" "<<" 20)) := by
  refine ⟨?_, ?_, ?_, by rfl⟩
  · intro tb stream s top restS tokType tokVal pos terminal idx'
      h1 h2 h3 h4 h5 h6 h7
    exact step_no_entry_error tb stream s top restS tokType tokVal pos
      terminal idx' h1 h2 h3 h4 h5 h6 h7
  · intro tb nt t
    exact mem_parsingContext
  · intro tb stream fuel s e h
    exact parseLoop_first_error tb stream fuel s e h

theorem c7_error_reporting_witness :
    step table0 [("symbol", "\x7b", 0), ("$", "$", 2)] initPState =
      .err (.errList "\x7b" (parsingContext table0 "Start") 0) ∧
    parseLoop table0 [("symbol", "\x7b", 0), ("$", "$", 2)] 1 initPState =
      some (.error (.errList "\x7b" (parsingContext table0 "Start") 0)) ∧
    ("int" ∈ parsingContext table0 "Start" ↔
      "int" ∈ terminalsList ∧ ((cellGet table0 "Start" "int").getD "") ≠ "") := by
  refine ⟨?_, ?_, c7_error_reporting.2.1 table0 "Start" "int"⟩
  · exact c7_error_reporting.1 table0 _ initPState "Start" ["$"] "symbol"
      "\x7b" 0 "\x7b" 0 rfl rfl rfl (by decide) (by decide) rfl rfl
  · exact c7_error_reporting.2.2.1 table0 _ 0 initPState _
      (c7_error_reporting.1 table0 _ initPState "Start" ["$"] "symbol"
        "\x7b" 0 "\x7b" 0 rfl rfl rfl (by decide) (by decide) rfl rfl)

/-! ## Claim C3 witness and Claim C4 witness -/

theorem c3_conflict_detection_witness :
    (∃ tb, buildParseTable grammarList = .ok tb) ↔
      (writeKeys grammarList).Nodup :=
  (c3_conflict_detection.2.2 grammarList (by decide)).1

theorem c4_table_invariant_witness :
    (memFirstOfStringSet specFIRST (splitSyms "#include S") "#include" ∧
      "#include" ≠ "ε") ∨
    ("#include S" = "ε" ∧ "#include" ∈ specFOLLOW "S") :=
  c4_table_invariant.1 "S" (by decide) "#include" (by decide) "#include S"
    (by rfl) (by decide)

/-! ## Claim C9 witness -/

theorem c9_line_column_witness :
    ∃ (i : Nat) (hi : i < (linePositions "ab\ncd\nef").length),
      (linePositions "ab\ncd\nef").get ⟨i, hi⟩ ≤ 4 ∧
      (∀ (j : Nat) (hj : j < (linePositions "ab\ncd\nef").length),
        (linePositions "ab\ncd\nef").get ⟨j, hj⟩ ≤ 4 →
        (linePositions "ab\ncd\nef").get ⟨j, hj⟩ ≤
          (linePositions "ab\ncd\nef").get ⟨i, hi⟩) ∧
      getLineNumber "ab\ncd\nef" 4 = i + 1 ∧
      getColumnNumber "ab\ncd\nef" 4 =
        4 - (linePositions "ab\ncd\nef").get ⟨i, hi⟩ + 1 :=
  c9_line_column "ab\ncd\nef" 4 (by decide)

/-! ## Claim C10 -/

/-- C10: the arena of the initial state is well-formed (the root has no
parent); every continuing engine step preserves well-formedness — each
non-root node's parent field names exactly the earlier node whose children
list contains it — never shrinks the arena, and never reassigns the parent
field of an existing node; consequently the upward parent walk used by the
declared-type query terminates at the root from any node of a well-formed
arena, in particular on the built tree `treeDouble`. -/
theorem c10_parent_pointers :
    stateWf initPState ∧
    (∀ (tb : PTable) (stream : List Token) (s s' : PState),
      stateWf s → step tb stream s = .cont s' →
      stateWf s' ∧ s.nodes.length ≤ s'.nodes.length ∧
      (∀ i, i < s.nodes.length →
        (nodeAt s'.nodes i).parent = (nodeAt s.nodes i).parent)) ∧
    (∀ ns, wfArena ns → ∀ i, i < ns.length →
      walkRoot ns (i + 1) i = some 0) ∧
    wfArena treeDouble := by
  exact ⟨by decide,
    fun tb stream s s' hwf hstep => step_preserves_wf tb stream s s' hwf hstep,
    fun ns h i hi => walkRoot_reaches_root h i hi,
    by decide⟩

theorem c10_parent_pointers_witness :
    stateWf stepSmall1 ∧ walkRoot treeDouble 6 5 = some 0 := by
  refine ⟨?_, ?_⟩
  · exact (c10_parent_pointers.2.1 table0 tokensSmall initPState stepSmall1
      c10_parent_pointers.1 rfl).1
  · exact c10_parent_pointers.2.2.1 treeDouble c10_parent_pointers.2.2.2 5
      (by decide)
